import Mathlib

/-!
Verification of the GitLab user-reports backend.

This file gives a shallow embedding of the performance-aggregation engine
(`app/services/performance.py`), the performance cache used by the API routes
(`app/api/routes/performance.py` together with the indexes declared in
`app/db/database.py`), and the scheduled-report dispatcher
(`app/services/scheduler.py`), and proves or refutes the frozen claims
about them.

Conventions of the embedding:
* instants are integers counting seconds since the Unix epoch in UTC
  (Python `datetime` comparison on aware datetimes is comparison of these
  integers);
* Python `dict` values built by `defaultdict` accumulation are modelled as
  association lists updated in insertion order (`addTo`), which reproduces
  both the key set, the insertion order and the accumulated values of the
  Python dict;
* provider calls (GitLab REST / GraphQL, MongoDB) are inputs of the
  modelled functions: the model takes the data the provider would return.
-/

namespace GitlabUserReports

/-! ## Association-list maps (model of Python `dict` / `defaultdict(int)`) -/

/-- One `m[k] += v` step on an insertion-ordered association list, the
denotation of a `defaultdict(int)` update: an existing key accumulates in
place, a new key is appended at the end. -/
def addTo : List (Int × Int) → Int → Int → List (Int × Int)
  | [], k, v => [(k, v)]
  | (k', v') :: rest, k, v =>
    if k' = k then (k', v' + v) :: rest else (k', v') :: addTo rest k v

/-- Value lookup with the `defaultdict(int)` default of `0`. -/
def lookupD (m : List (Int × Int)) (k : Int) : Int :=
  match m.find? (fun kv => kv.1 = k) with
  | some kv => kv.2
  | none => 0

/-- Accumulate a stream of `(key, value)` pairs into a map, the denotation
of a Python loop doing `m[k] += v` over the stream. -/
def mapAccum (pairs : List (Int × Int)) : List (Int × Int) :=
  pairs.foldl (fun m kv => addTo m kv.1 kv.2) []

/-- Sum of all values of the map (`sum(m.values())`). -/
def valsSum (m : List (Int × Int)) : Int :=
  (m.map (fun kv => kv.2)).sum

/-- Key list of the map (`m.keys()`). -/
def keysOf (m : List (Int × Int)) : List Int :=
  m.map (fun kv => kv.1)

/-! ## Instants and GitLab datetime strings

`_parse_gitlab_datetime` (performance.py:46-53) lexes an ISO-8601 string.
The embedding starts from the already-lexed components of that string:
calendar fields plus the timezone suffix (`Z`, an explicit offset, or
none).  The function body is then a faithful transcription: a trailing
`Z` is replaced by `+00:00`, a naive value is assumed UTC, the instant is
converted to UTC and truncated to UTC midnight (`_to_date`). -/

/-- Timezone suffix of an ISO-8601 datetime string. -/
inductive TzSuffix where
  | naive : TzSuffix
  | zulu : TzSuffix
  | offset (minutes : Int) : TzSuffix
  deriving DecidableEq, Repr

/-- Lexed components of a GitLab ISO-8601 datetime string. -/
structure IsoDateTime where
  year : Int
  month : Int
  day : Int
  hour : Int
  minute : Int
  second : Int
  tz : TzSuffix
  deriving DecidableEq, Repr

/-- Days from the civil epoch 1970-01-01 (standard proleptic-Gregorian
day-number computation used by `datetime.date.toordinal` arithmetic). -/
def daysFromCivil (y m d : Int) : Int :=
  let y' := y - (if m ≤ 2 then 1 else 0)
  let era := Int.fdiv y' 400
  let yoe := y' - era * 400
  let mp := Int.fmod (m + 9) 12
  let doy := Int.fdiv (153 * mp + 2) 5 + d - 1
  let doe := yoe * 365 + Int.fdiv yoe 4 - Int.fdiv yoe 100 + doy
  era * 146097 + doe - 719468

/-- Effective UTC offset in minutes after the normalisation done by
`_parse_gitlab_datetime`: a trailing `Z` becomes `+00:00`, and a naive
datetime is given `tzinfo=UTC`, so both mean offset `0`. -/
def tzOffsetMinutes : TzSuffix → Int
  | .naive => 0
  | .zulu => 0
  | .offset minutes => minutes

/-- The UTC instant (epoch seconds) denoted by the lexed datetime string,
after `astimezone(UTC)`. -/
def epochSeconds (t : IsoDateTime) : Int :=
  daysFromCivil t.year t.month t.day * 86400
    + t.hour * 3600 + t.minute * 60 + t.second
    - tzOffsetMinutes t.tz * 60

/-- `_parse_gitlab_datetime`: parse, normalise to UTC, truncate to UTC
midnight (`_to_date`).  Returns the epoch seconds of that midnight. -/
def parseGitlabDatetime (t : IsoDateTime) : Int :=
  Int.fdiv (epochSeconds t) 86400 * 86400

/-! ## Commits and the project performance aggregator

`get_project_performance_stats` (performance.py:119-281).  The GitLab
client is modelled by its observable answers: `query e since until` is
the commit list `project.commits.list(..., since=…, until=…, author=e)`
returns for identity `e`, and `mrsOf cid` is the merge-request list
`commit.merge_requests()` returns for the commit with id `cid`.
Presentation-only project metadata (name, avatar, urls) is not modelled.
-/

/-- `commit.stats` entries; the Python code reads them with
`stats.get("additions", 0)` / `stats.get("deletions", 0)`. -/
structure CommitStats where
  additions : Int
  deletions : Int
  deriving DecidableEq, Repr

/-- A provider-native commit record as used by the aggregator. -/
structure Commit where
  id : String
  author_email : String
  authored_date : IsoDateTime
  parent_ids : List String
  title : String
  message : String
  web_url : String
  stats : Option CommitStats
  deriving DecidableEq, Repr

/-- `(commit.stats or {}).get("additions", 0)`. -/
def statAdditions (c : Commit) : Int :=
  match c.stats with
  | some s => s.additions
  | none => 0

/-- `(commit.stats or {}).get("deletions", 0)`. -/
def statDeletions (c : Commit) : Int :=
  match c.stats with
  | some s => s.deletions
  | none => 0

/-- The commit-retention filter of performance.py:154-161:
`commit.author_email in user_emails`, authored date (canonical, midnight
UTC) within `[since, until]`, and fewer than two parents. -/
def retainCommit (user_emails : List String) (since untl : Int) (c : Commit) : Bool :=
  decide (c.author_email ∈ user_emails)
    && decide (since ≤ parseGitlabDatetime c.authored_date)
    && decide (parseGitlabDatetime c.authored_date ≤ untl)
    && decide (c.parent_ids.length < 2)

/-- Stable insertion step: place `x` before the first element `y` with
`le x y` (equal keys keep their original relative order, as Python's
stable `sorted` does). -/
def insertSorted {α : Type} (le : α → α → Bool) (x : α) : List α → List α
  | [] => [x]
  | y :: ys => if le x y then x :: y :: ys else y :: insertSorted le x ys

/-- A stable sort modelling Python's `sorted(..., key=...)`. -/
def sortBy {α : Type} (le : α → α → Bool) (l : List α) : List α :=
  l.foldr (insertSorted le) []

/-- performance.py:140-153: one provider query per identity, results
concatenated with `commits.extend(...)`; the query's upper bound is
widened by the safe offset, its lower bound is `since`. -/
def fetchedCommits (user_emails : List String)
    (query : String → Int → Int → List Commit) (since untilWidened : Int) :
    List Commit :=
  (user_emails.map (fun e => query e since untilWidened)).flatten

/-- A provider merge-request reference as returned by
`commit.merge_requests()` (a raw dict in the source). -/
structure MergeRequestRef where
  iid : Int
  title : String
  description : Option String
  web_url : String
  state : String
  reference : Option String
  references_full : String
  created_at : IsoDateTime
  commits_count : Option Int
  deriving DecidableEq, Repr

/-- One step of the `merge_requests` dict construction
(performance.py:199-206): first-seen MR payload is kept, the commit id is
appended to that MR's list. -/
def insertMRCommit :
    List (Int × MergeRequestRef × List String) → MergeRequestRef → String →
    List (Int × MergeRequestRef × List String)
  | [], mr, cid => [(mr.iid, mr, [cid])]
  | (i, r, cs) :: rest, mr, cid =>
    if i = mr.iid then (i, r, cs ++ [cid]) :: rest
    else (i, r, cs) :: insertMRCommit rest mr cid

/-- The `mr_iid -> (mr_details, [commit_ids])` dict built by iterating the
sorted commits and, per commit, its merge-request references. -/
def buildMergeRequests (mrsOf : String → List MergeRequestRef)
    (cs : List Commit) : List (Int × MergeRequestRef × List String) :=
  cs.foldl (fun m c => (mrsOf c.id).foldl (fun m mr => insertMRCommit m mr c.id) m) []

/-- `MergeRequestDetails` of schemas/performance.py as filled in by
performance.py:215-257.  `commits` keeps the retained `Commit` records
whose projection to `CommitInfo` the source stores. -/
structure MergeRequestDetails where
  iid : String
  title : String
  description : String
  web_url : String
  state : String
  reference : String
  created_at : Int
  total_commits : Nat
  total_additions : Int
  total_deletions : Int
  commits_count : Int
  commits : Option (List Commit)
  deriving DecidableEq, Repr

/-- performance.py:217-257: build one `MergeRequestDetails` from a dict
entry, re-filtering `user_commits` by membership of the commit id in the
entry's commit-id list. -/
def mkMergeRequestDetails (user_commits : List Commit)
    (entry : Int × MergeRequestRef × List String) : MergeRequestDetails :=
  let mr := entry.2.1
  let cids := entry.2.2
  let mr_user_commits := user_commits.filter (fun c => decide (c.id ∈ cids))
  { iid := toString mr.iid
    title := mr.title
    description := mr.description.getD ""
    web_url := mr.web_url
    state := mr.state
    reference :=
      match mr.reference with
      | some r => r
      | none => mr.references_full
    created_at := parseGitlabDatetime mr.created_at
    total_commits := mr_user_commits.length
    total_additions := (mr_user_commits.map statAdditions).sum
    total_deletions := (mr_user_commits.map statDeletions).sum
    commits_count :=
      match mr.commits_count with
      | some n => n
      | none => mr_user_commits.length
    commits :=
      match mr_user_commits with
      | [] => none
      | l => some l }

/-- `ProjectPerformanceResponse` (window, aggregate counters, daily
series, merge-request details). -/
structure ProjectPerformanceResponse where
  since : Int
  untl : Int
  commits : Nat
  additions : Int
  deletions : Int
  changes : Int
  mr_contributed : Nat
  merge_requests : Option (List MergeRequestDetails)
  daily_commit_counts : List (Int × Int)
  daily_additions : List (Int × Int)
  daily_deletions : List (Int × Int)
  daily_changes : List (Int × Int)
  deriving Repr

/-- `get_project_performance_stats` (performance.py:119-281): fetch per
identity with the widened upper bound, filter by `retainCommit`, sort by
canonical authored date, accumulate totals and daily series, correlate
merge requests. -/
def getProjectPerformanceStats (user_emails : List String)
    (query : String → Int → Int → List Commit)
    (mrsOf : String → List MergeRequestRef)
    (safeDateOffset : Int) (since untl : Int) : ProjectPerformanceResponse :=
  let commits := fetchedCommits user_emails query since (untl + safeDateOffset * 86400)
  let user_commits := commits.filter (retainCommit user_emails since untl)
  let sorted_commits := sortBy
    (fun a b => decide (parseGitlabDatetime a.authored_date ≤ parseGitlabDatetime b.authored_date))
    user_commits
  let merge_requests := buildMergeRequests mrsOf sorted_commits
  let total_additions := (sorted_commits.map statAdditions).sum
  let total_deletions := (sorted_commits.map statDeletions).sum
  let merge_request_details := merge_requests.map (mkMergeRequestDetails user_commits)
  { since := since
    untl := untl
    commits := user_commits.length
    additions := total_additions
    deletions := total_deletions
    changes := total_additions + total_deletions
    mr_contributed := merge_requests.length
    merge_requests :=
      match merge_request_details with
      | [] => none
      | l => some l
    daily_commit_counts :=
      mapAccum (sorted_commits.map (fun c => (parseGitlabDatetime c.authored_date, 1)))
    daily_additions :=
      mapAccum (sorted_commits.map (fun c => (parseGitlabDatetime c.authored_date, statAdditions c)))
    daily_deletions :=
      mapAccum (sorted_commits.map (fun c => (parseGitlabDatetime c.authored_date, statDeletions c)))
    daily_changes :=
      mapAccum (sorted_commits.map
        (fun c => (parseGitlabDatetime c.authored_date, statAdditions c + statDeletions c))) }

/-! ## The general performance composer

`summarize_user_performance` (performance.py:595-681).  The project scope
is the set of project ids discovered from the event stream; the model
takes, for each involved project, the provider answers for that project
(`ProjectQuery`).  Review statistics are pass-through counters and are
not needed by the claims. -/

/-- Provider answers for one involved project. -/
structure ProjectQuery where
  query : String → Int → Int → List Commit
  mrsOf : String → List MergeRequestRef

/-- `GeneralUserPerformance`: summed counters plus merged daily series. -/
structure GeneralUserPerformance where
  commits : Nat
  additions : Int
  deletions : Int
  changes : Int
  mr_contributed : Nat
  daily_commit_counts : List (Int × Int)
  daily_additions : List (Int × Int)
  daily_deletions : List (Int × Int)
  daily_changes : List (Int × Int)
  project_performances : List ProjectPerformanceResponse
  deriving Repr

/-- `summarize_user_performance` (performance.py:612-681): one project
aggregation per involved project, counters summed, daily series merged by
per-day addition (`merged[date] += value` over every project's map). -/
def summarizeUserPerformance (user_emails : List String)
    (projects : List ProjectQuery) (safeDateOffset : Int)
    (start_date end_date : Int) : GeneralUserPerformance :=
  let project_performances := projects.map
    (fun p => getProjectPerformanceStats user_emails p.query p.mrsOf safeDateOffset start_date end_date)
  let total_additions := (project_performances.map (fun pp => pp.additions)).sum
  let total_deletions := (project_performances.map (fun pp => pp.deletions)).sum
  { commits := (project_performances.map (fun pp => pp.commits)).sum
    additions := total_additions
    deletions := total_deletions
    changes := total_additions + total_deletions
    mr_contributed := (project_performances.map (fun pp => pp.mr_contributed)).sum
    daily_commit_counts :=
      mapAccum ((project_performances.map (fun pp => pp.daily_commit_counts)).flatten)
    daily_additions :=
      mapAccum ((project_performances.map (fun pp => pp.daily_additions)).flatten)
    daily_deletions :=
      mapAccum ((project_performances.map (fun pp => pp.daily_deletions)).flatten)
    daily_changes :=
      mapAccum ((project_performances.map (fun pp => pp.daily_changes)).flatten)
    project_performances := project_performances }

/-! ## The time-spent aggregator

`get_time_spent_stats` (performance.py:284-592).  The GraphQL endpoint is
modelled by the sequence of responses it gives to the successive POST
requests of the pagination loop: element `i` of the list answers request
`i`.  `none` stands for a response whose `data` carries no `timelogs`
field (the loop breaks, treating it as empty).  Pydantic validation of a
node (`TimelogNode(...)`, guarded by `except ValidationError`) fails
exactly when the node misses its `id` or a parseable `spentAt`; the other
fields are either defaulted (`timeSpent or 0`, optional summary/refs) or
built before the guarded constructor. -/

/-- GraphQL `pageInfo`. -/
structure PageInfo where
  hasNextPage : Bool
  endCursor : Option String
  deriving DecidableEq, Repr

/-- A raw timelog node as decoded from the GraphQL JSON. -/
structure RawTimelogNode where
  id : Option Int
  projectId : Int
  projectPath : String
  timeSpent : Option Int
  spentAt : Option Int
  summary : Option String
  issueRef : Option String
  mrRef : Option String
  deriving DecidableEq, Repr

/-- A validated `TimelogNode` (schemas/performance.py). -/
structure TimelogNode where
  id : Int
  projectId : Int
  projectPath : String
  time_spent : Int
  spent_at : Int
  summary : Option String
  issueRef : Option String
  mrRef : Option String
  deriving DecidableEq, Repr

/-- `TimelogNode(...)` construction guarded by `except ValidationError`:
succeeds when `id` and `spentAt` are present, defaults `timeSpent` to 0. -/
def validateTimelogNode (n : RawTimelogNode) : Option TimelogNode :=
  match n.id, n.spentAt with
  | some i, some s =>
    some { id := i, projectId := n.projectId, projectPath := n.projectPath
           time_spent := n.timeSpent.getD 0, spent_at := s
           summary := n.summary, issueRef := n.issueRef, mrRef := n.mrRef }
  | _, _ => none

/-- One `data.timelogs` object of a GraphQL response. -/
structure TimelogsPage where
  nodes : List RawTimelogNode
  totalSpentTime : Option Int
  pageInfo : PageInfo
  deriving DecidableEq, Repr

/-- The pagination loop of performance.py:380-439.  Returns the
accumulated node list, the accumulated `totalSpentTime` and the number of
requests issued.  Per response: a missing `timelogs` field breaks, nodes
and total accumulate, `hasNextPage=false` breaks, then a missing or empty
`endCursor` breaks; otherwise the next request is issued. -/
def runPagination : List (Option TimelogsPage) → List RawTimelogNode × Int × Nat
  | [] => ([], 0, 0)
  | none :: _ => ([], 0, 1)
  | some p :: rest =>
    let nodes := p.nodes
    let secs := p.totalSpentTime.getD 0
    if p.pageInfo.hasNextPage = false then (nodes, secs, 1)
    else
      match p.pageInfo.endCursor with
      | none => (nodes, secs, 1)
      | some c =>
        if c = "" then (nodes, secs, 1)
        else
          let r := runPagination rest
          (nodes ++ r.1, secs + r.2.1, 1 + r.2.2)

/-- A response signals the loop to stop after consuming it. -/
def pageStops : Option TimelogsPage → Bool
  | none => true
  | some p => !p.pageInfo.hasNextPage || p.pageInfo.endCursor.getD "" = ""

/-- `TimeSpentStats` restricted to the fields the claims inspect; total
hours are exact rationals (`seconds / 3600.0`).  The day-by-project and
per-project groupings are presentation-only re-arrangements of
`retained` and are not needed by any claim. -/
structure TimeSpentStats where
  total_time_spent_hours : ℚ
  mr_contributed : Nat
  issue_contributed : Nat
  retained : List TimelogNode
  deriving DecidableEq, Repr

/-- `get_time_spent_stats` (performance.py:284-592): paginate, bail out
with zeros when no node was fetched, validate each node individually
(skipping failures), bail out with zeros when no node survives, count
distinct issue/MR references, and compute total hours preferring the
accumulated provider total when non-zero. -/
def getTimeSpentStats (pages : List (Option TimelogsPage)) : TimeSpentStats :=
  let r := runPagination pages
  let all_nodes := r.1
  if all_nodes.isEmpty then
    { total_time_spent_hours := 0, mr_contributed := 0, issue_contributed := 0, retained := [] }
  else
    let timelog_nodes := all_nodes.filterMap validateTimelogNode
    if timelog_nodes.isEmpty then
      { total_time_spent_hours := 0, mr_contributed := 0, issue_contributed := 0, retained := [] }
    else
      let issue_ids := (timelog_nodes.filterMap (fun tl => tl.issueRef)).dedup
      let mr_ids := (timelog_nodes.filterMap (fun tl => tl.mrRef)).dedup
      let total_spent_seconds :=
        if r.2.1 = 0 then (timelog_nodes.map (fun tl => tl.time_spent)).sum else r.2.1
      { total_time_spent_hours := (total_spent_seconds : ℚ) / 3600
        mr_contributed := mr_ids.length
        issue_contributed := issue_ids.length
        retained := timelog_nodes }

/-! ## The performance cache

Lookup and store as performed by `get_user_performance`
(routes/performance.py:69-112) over the `performance_cache` collection,
whose indexes are declared in `init_db` (db/database.py:66-87): a
non-unique lookup index, a unique index on
`(user_id, project_id, type, start_date, end_date)` (an absent
`project_id` indexes as null, here `none`), and a TTL index on
`expires_at` with `expireAfterSeconds=0`, whose background sweep runs at
unspecified moments. -/

/-- A document of the `performance_cache` collection. -/
structure CacheDoc (α : Type) where
  user_id : Option Int
  project_id : Option Int
  qtype : String
  start_date : Int
  end_date : Int
  data : α
  expires_at : Int
  deriving DecidableEq, Repr

/-- The 5-tuple of the unique index `user_project_date_range_idx`. -/
def cacheKey {α : Type} (d : CacheDoc α) :
    Option Int × Option Int × String × Int × Int :=
  (d.user_id, d.project_id, d.qtype, d.start_date, d.end_date)

/-- `insert_one` against a collection carrying the unique index: a
duplicate of the indexed key is rejected with a duplicate-key error,
otherwise the document is appended. -/
def insertOne {α : Type} (coll : List (CacheDoc α)) (d : CacheDoc α) :
    Except String (List (CacheDoc α)) :=
  if coll.any (fun e => decide (cacheKey e = cacheKey d)) then
    Except.error "duplicate key"
  else
    Except.ok (coll ++ [d])

/-- The cache lookup of routes/performance.py:71-78: `find_one` on
`user_id`, `type="general"`, `start_date`, `end_date` — and on nothing
else: no `expires_at` condition appears in the filter. -/
def findOneGeneral {α : Type} (coll : List (CacheDoc α)) (uid sd ed : Int) :
    Option (CacheDoc α) :=
  coll.find? (fun d =>
    decide (d.user_id = some uid) && decide (d.qtype = "general")
      && decide (d.start_date = sd) && decide (d.end_date = ed))

/-- One pass of MongoDB's TTL monitor at instant `now`: physically removes
every document whose `expires_at` is at or before `now`. -/
def ttlSweep {α : Type} (now : Int) (coll : List (CacheDoc α)) : List (CacheDoc α) :=
  coll.filter (fun d => decide (now < d.expires_at))

/-- The `store` of routes/performance.py:99-109 generalised over the full
key: insert a document for the key carrying `expires_at = now + ttl`. -/
def storeCached {α : Type} (coll : List (CacheDoc α))
    (now ttl : Int) (uid pid : Option Int) (ty : String) (sd ed : Int)
    (payload : α) : Except String (List (CacheDoc α)) :=
  insertOne coll
    { user_id := uid, project_id := pid, qtype := ty, start_date := sd
      end_date := ed, data := payload, expires_at := now + ttl }

/-- The cache-relevant behaviour of `get_user_performance`
(routes/performance.py:69-112): return the cached payload when `find_one`
hits, otherwise recompute, store with `expires_at = now + ttl`, and
return the fresh value.  The boolean records whether the aggregate was
recomputed. -/
def getUserPerformanceRoute {α : Type}
    (coll : List (CacheDoc α)) (now ttl : Int) (uid sd ed : Int)
    (compute : α) : Except String (α × List (CacheDoc α) × Bool) :=
  match findOneGeneral coll uid sd ed with
  | some doc => Except.ok (doc.data, coll, false)
  | none =>
    match storeCached coll now ttl (some uid) none "general" sd ed compute with
    | Except.ok coll2 => Except.ok (compute, coll2, true)
    | Except.error e => Except.error e

/-! ## The scheduled report dispatcher

`scheduler.py`.  A job id is `"user-performance-report-" ++ sid`, with
suffix `"-manual"` for the one-shot manual run; schedule ids are
`str(ObjectId)` (24 hex characters), so the id string determines the
`(sid, manual)` pair, which is how jobs are modelled.  Only report jobs
are modelled (the reconciliation pass skips ids without the report
prefix). -/

/-- An APScheduler trigger. -/
inductive JobKind where
  | cron (day_of_week : String) (hour_utc minute_utc : Int)
  | date (run_date : Int)
  deriving DecidableEq, Repr

/-- A registered report job. -/
structure Job where
  sid : String
  manual : Bool
  kind : JobKind
  deriving DecidableEq, Repr

/-- A `scheduled_reports` document. -/
structure ScheduleRecord where
  sid : String
  active : Bool
  manual_trigger_at : Option Int
  user_id : Int
  to_recipients : List String
  cc : List String
  bcc : List String
  day_of_week : String
  hour_utc : Int
  minute_utc : Int
  last_error : Option String
  last_sent_at : Option Int
  last_email_content : Option String
  updated_at : Int
  deriving DecidableEq, Repr

/-- `add_job(..., replace_existing=True)`: a job with the same id is
replaced, otherwise the job is appended. -/
def addJobReplace (jobs : List Job) (j : Job) : List Job :=
  if jobs.any (fun o => decide (o.sid = j.sid ∧ o.manual = j.manual)) then
    jobs.map (fun o => if o.sid = j.sid ∧ o.manual = j.manual then j else o)
  else
    jobs ++ [j]

/-- `_register_job` (scheduler.py:450-472): inactive schedules register
nothing; active ones (re-)register their cron job. -/
def registerJob (jobs : List Job) (s : ScheduleRecord) : List Job :=
  if s.active = false then jobs
  else addJobReplace jobs
    { sid := s.sid, manual := false
      kind := .cron s.day_of_week s.hour_utc s.minute_utc }

/-- Outcome of one reconciliation pass. -/
structure SyncResult where
  schedules : List ScheduleRecord
  jobs : List Job
  manual_enqueued : List String
  deriving Repr

/-- `sync_scheduled_jobs` (scheduler.py:475-514): register a cron job per
active schedule and collect manual triggers of active schedules; remove
every report job (cron or manual) whose schedule id is not active; then
enqueue a date job per collected manual trigger and clear that schedule's
`manual_trigger_at`. -/
def syncScheduledJobs (schedules : List ScheduleRecord) (jobs : List Job)
    (now : Int) : SyncResult :=
  let active_ids := (schedules.filter (fun s => s.active)).map (fun s => s.sid)
  let manual_triggers :=
    (schedules.filter (fun s => s.manual_trigger_at.isSome && s.active)).map (fun s => s.sid)
  let jobs1 := schedules.foldl (fun js s => registerJob js s) jobs
  let jobs2 := jobs1.filter (fun j => decide (j.sid ∈ active_ids))
  let jobs3 := manual_triggers.foldl
    (fun js sid => addJobReplace js { sid := sid, manual := true, kind := .date now }) jobs2
  { schedules := schedules.map (fun s =>
      if decide (s.sid ∈ manual_triggers) then
        { s with manual_trigger_at := none, updated_at := now }
      else s)
    jobs := jobs3
    manual_enqueued := manual_triggers }

/-- Environment of one fired job: the schedule as found in the store and
the outcome of every external step (`Except.error` carries the string the
code would record). -/
structure FireEnv where
  schedule : Option ScheduleRecord
  gitlab_config : Bool
  perf : Except String Unit
  time_spent_ok : Bool
  mail_config : Except String Unit
  send : Except String Unit
  body : String
  deriving Repr

/-- The single store write a fired job performs on its schedule. -/
inductive ScheduleUpdate where
  | noUpdate
  | recordError (msg : String)
  | recordSuccess (sentAt : Int) (body : String)
  deriving DecidableEq, Repr

/-- Observable outcome of `send_scheduled_report`. -/
structure FireResult where
  sent : Bool
  removedJob : Bool
  update : ScheduleUpdate
  deriving DecidableEq, Repr

/-- `send_scheduled_report` (scheduler.py:337-447).  Every failure path is
caught inside the job body (the function is total): missing schedule and
inactive schedule remove the job and return; missing recipients return;
a missing GitLab configuration, a computation failure, a mail
configuration error and a send failure are recorded via
`_record_last_error`; a time-spent failure is non-fatal (`time_spent =
None`) and the report is still sent; success stamps `last_sent_at`,
clears `last_error` and stores the rendered body. -/
def sendScheduledReport (env : FireEnv) (now : Int) : FireResult :=
  match env.schedule with
  | none => { sent := false, removedJob := true, update := .noUpdate }
  | some s =>
    if s.active = false then
      { sent := false, removedJob := true, update := .noUpdate }
    else if s.to_recipients.isEmpty then
      { sent := false, removedJob := false, update := .noUpdate }
    else if env.gitlab_config = false then
      { sent := false, removedJob := false
        update := .recordError "GitLab admin token is not configured" }
    else
      match env.perf with
      | .error m => { sent := false, removedJob := false, update := .recordError m }
      | .ok _ =>
        match env.mail_config with
        | .error m => { sent := false, removedJob := false, update := .recordError m }
        | .ok _ =>
          match env.send with
          | .ok _ =>
            { sent := true, removedJob := false, update := .recordSuccess now env.body }
          | .error m => { sent := false, removedJob := false, update := .recordError m }

/-- Effect of a `ScheduleUpdate` on the schedule document
(`_record_last_error`, scheduler.py:316-320, and the success update,
scheduler.py:433-443). -/
def applyUpdate (s : ScheduleRecord) (u : ScheduleUpdate) (now : Int) : ScheduleRecord :=
  match u with
  | .noUpdate => s
  | .recordError m => { s with last_error := some m, updated_at := now }
  | .recordSuccess sentAt body =>
    { s with last_sent_at := some sentAt, last_error := none
             last_email_content := some body, updated_at := now }

/-- The trigger loop firing a batch of independent jobs: each job's
outcome is a function of its own environment only. -/
def runJobs (envs : List FireEnv) (now : Int) : List FireResult :=
  envs.map (fun e => sendScheduledReport e now)

/-! ## Concrete data used by the claim theorems, and the claim-side
retention predicate -/

/-- A well-formed timelog node used in the pagination scenario. -/
def tsNode : RawTimelogNode :=
  { id := some 1, projectId := 7, projectPath := "group/proj"
    timeSpent := some 60, spentAt := some 0
    summary := none, issueRef := none, mrRef := none }

/-- A provider page with `n` nodes and the given page info. -/
def tsPage (n : Nat) (hasNext : Bool) (cur : Option String) : TimelogsPage :=
  { nodes := List.replicate n tsNode, totalSpentTime := some 0
    pageInfo := { hasNextPage := hasNext, endCursor := cur } }

/-- The 100/100/40 scenario, plus a fourth page that a correct loop never
requests. -/
def tsScenario : List (Option TimelogsPage) :=
  [ some (tsPage 100 true (some "c1"))
  , some (tsPage 100 true (some "c2"))
  , some (tsPage 40 false none)
  , some (tsPage 100 true (some "c4")) ]

/-- A node that fails `TimelogNode` validation (no `spentAt`). -/
def tsBadNode : RawTimelogNode :=
  { id := some 1, projectId := 7, projectPath := "group/proj"
    timeSpent := some 600, spentAt := none
    summary := none, issueRef := none, mrRef := none }

/-- A single page whose provider aggregate is 3600 seconds but whose only
node fails validation. -/
def c7Pages : List (Option TimelogsPage) :=
  [ some { nodes := [tsBadNode], totalSpentTime := some 3600
           pageInfo := { hasNextPage := false, endCursor := none } } ]

/-- The document `store(k, 42, ttl=100)` at instant 0 produces for the
general key `(user 1, window [10, 20])`. -/
def cacheDocEx : CacheDoc Int :=
  { user_id := some 1, project_id := none, qtype := "general"
    start_date := 10, end_date := 20, data := 42, expires_at := 100 }

/-- An inactive schedule with a pending manual trigger. -/
def schedInactiveEx : ScheduleRecord :=
  { sid := "b1", active := false, manual_trigger_at := some 5, user_id := 9
    to_recipients := ["x@example.com"], cc := [], bcc := []
    day_of_week := "mon", hour_utc := 7, minute_utc := 0
    last_error := none, last_sent_at := none, last_email_content := none
    updated_at := 0 }

/-- A stale cron job left over for the inactive schedule. -/
def staleJobEx : Job := { sid := "b1", manual := false, kind := .cron "mon" 7 0 }

/-- An environment whose fire finds the inactive schedule. -/
def envInactiveEx : FireEnv :=
  { schedule := some schedInactiveEx, gitlab_config := true
    perf := .ok (), time_spent_ok := true, mail_config := .ok ()
    send := .ok (), body := "<html>r</html>" }

/-- An active schedule ready to fire. -/
def schedActiveEx : ScheduleRecord :=
  { sid := "a1", active := true, manual_trigger_at := none, user_id := 5
    to_recipients := ["dev@example.com"], cc := [], bcc := []
    day_of_week := "mon", hour_utc := 7, minute_utc := 0
    last_error := some "old error", last_sent_at := none
    last_email_content := none, updated_at := 0 }

/-- An environment in which every step succeeds. -/
def envOkEx : FireEnv :=
  { schedule := some schedActiveEx, gitlab_config := true
    perf := .ok (), time_spent_ok := false, mail_config := .ok ()
    send := .ok (), body := "<html>report</html>" }

/-- The same environment with a failing SMTP delivery. -/
def envSendFailEx : FireEnv :=
  { envOkEx with send := .error "smtp down" }

/-- The re-activated copy of the inactive example schedule. -/
def schedReactivatedEx : ScheduleRecord := { schedInactiveEx with active := true }

/-- The retention condition exactly as the claim words it: `author_email`
in the identity set, parent count strictly below 2, canonical authored
date (trailing `Z` accepted as UTC, truncated to UTC midnight) within
`[since, until]` inclusive. -/
def specRetain (user_emails : List String) (since untl : Int) (c : Commit) : Bool :=
  decide (c.author_email ∈ user_emails)
    && decide (c.parent_ids.length < 2)
    && decide (since ≤ parseGitlabDatetime c.authored_date)
    && decide (parseGitlabDatetime c.authored_date ≤ untl)

/-- The claim-side set of contributing commits: the fetched commits
(concatenated per-identity query results, queried with the widened upper
bound) that satisfy `specRetain` for the exact window. -/
def retainedCommits (user_emails : List String)
    (query : String → Int → Int → List Commit)
    (safeDateOffset since untl : Int) : List Commit :=
  (fetchedCommits user_emails query since (untl + safeDateOffset * 86400)).filter
    (specRetain user_emails since untl)

/-- The sorted retained commit list as the pipeline computes it. -/
def sortedOf (user_emails : List String)
    (query : String → Int → Int → List Commit)
    (safeDateOffset since untl : Int) : List Commit :=
  sortBy
    (fun a b => decide (parseGitlabDatetime a.authored_date
      ≤ parseGitlabDatetime b.authored_date))
    ((fetchedCommits user_emails query since (untl + safeDateOffset * 86400)).filter
      (retainCommit user_emails since untl))

/-- A retained commit: matching email, one parent, authored 2024-01-02 UTC. -/
def cGood : Commit :=
  { id := "g1", author_email := "a@x"
    authored_date := { year := 2024, month := 1, day := 2, hour := 10, minute := 30
                       second := 0, tz := .zulu }
    parent_ids := ["p0"], title := "feat", message := "feat msg", web_url := "wg"
    stats := some { additions := 10, deletions := 2 } }

/-- A merge commit on the same day (two parents): must be excluded. -/
def cMerge : Commit :=
  { id := "m1", author_email := "a@x"
    authored_date := { year := 2024, month := 1, day := 2, hour := 11, minute := 0
                       second := 0, tz := .zulu }
    parent_ids := ["p1", "p2"], title := "merge", message := "merge msg"
    web_url := "wm", stats := some { additions := 100, deletions := 50 } }

/-- A commit outside the exact window (authored 2023-12-25, +03:30 offset)
that the widened provider query may still return: must be excluded. -/
def cOld : Commit :=
  { id := "o1", author_email := "a@x"
    authored_date := { year := 2023, month := 12, day := 25, hour := 8, minute := 0
                       second := 0, tz := .offset 210 }
    parent_ids := [], title := "old", message := "old msg", web_url := "wo"
    stats := none }

/-- A provider returning all three commits for every identity query. -/
def exQuery : String → Int → Int → List Commit := fun _ _ _ => [cGood, cMerge, cOld]

/-- The merge request the retained commit belongs to. -/
def mrRefEx : MergeRequestRef :=
  { iid := 1, title := "MR one", description := some "desc", web_url := "mw"
    state := "merged", reference := some "grp!1", references_full := "grp!1"
    created_at := { year := 2024, month := 1, day := 3, hour := 0, minute := 0
                    second := 0, tz := .zulu }
    commits_count := some 3 }

/-- `commit.merge_requests()`: only the retained commit references the MR. -/
def exMrs : String → List MergeRequestRef :=
  fun cid => if cid = "g1" then [mrRefEx] else []

/-- The window `[2024-01-02, 2024-01-02]` (UTC midnights). -/
def exSince : Int := parseGitlabDatetime
  { year := 2024, month := 1, day := 2, hour := 0, minute := 0, second := 0, tz := .zulu }

/-- The merge-request detail the pipeline builds on the example data. -/
def mrdEx : MergeRequestDetails := mkMergeRequestDetails [cGood] (1, mrRefEx, ["g1"])

/-! ### Laws of the accumulated maps -/

theorem lookupD_nil (k : Int) : lookupD [] k = 0 := rfl

theorem lookupD_cons (k₀ v₀ : Int) (tl : List (Int × Int)) (k' : Int) :
    lookupD ((k₀, v₀) :: tl) k' = if k₀ = k' then v₀ else lookupD tl k' := by
  by_cases h : k₀ = k' <;> simp [lookupD, List.find?, h]

theorem lookupD_addTo (m : List (Int × Int)) (k v k' : Int) :
    lookupD (addTo m k v) k' = lookupD m k' + (if k = k' then v else 0) := by
  induction m with
  | nil =>
    show lookupD [(k, v)] k' = _
    rw [lookupD_cons, lookupD_nil]
    by_cases h : k = k' <;> simp [h]
  | cons hd tl ih =>
    obtain ⟨k₀, v₀⟩ := hd
    show lookupD (if k₀ = k then (k₀, v₀ + v) :: tl else (k₀, v₀) :: addTo tl k v) k' = _
    by_cases h : k₀ = k
    · subst h
      rw [if_pos rfl, lookupD_cons, lookupD_cons]
      by_cases h' : k₀ = k' <;> simp [h']
    · rw [if_neg h, lookupD_cons, lookupD_cons, ih]
      by_cases h' : k₀ = k'
      · subst h'
        rw [if_pos rfl, if_pos rfl, if_neg (fun he => h he.symm)]
        simp
      · simp [h']

theorem valsSum_addTo (m : List (Int × Int)) (k v : Int) :
    valsSum (addTo m k v) = valsSum m + v := by
  induction m with
  | nil => simp [addTo, valsSum]
  | cons hd tl ih =>
    obtain ⟨k₀, v₀⟩ := hd
    by_cases h : k₀ = k
    · simp [addTo, valsSum, h]
      ring
    · simp only [valsSum] at ih
      simp [addTo, valsSum, h, ih]
      ring

theorem lookupD_foldl (l : List (Int × Int)) (m : List (Int × Int)) (k : Int) :
    lookupD (l.foldl (fun m kv => addTo m kv.1 kv.2) m) k
      = lookupD m k + ((l.filter (fun kv => kv.1 = k)).map (fun kv => kv.2)).sum := by
  induction l generalizing m with
  | nil => simp
  | cons hd tl ih =>
    obtain ⟨k₀, v₀⟩ := hd
    by_cases h : k₀ = k
    · simp [List.foldl_cons, ih, lookupD_addTo, h]
      omega
    · simp [List.foldl_cons, ih, lookupD_addTo, h]

theorem lookupD_mapAccum (pairs : List (Int × Int)) (k : Int) :
    lookupD (mapAccum pairs) k
      = ((pairs.filter (fun kv => kv.1 = k)).map (fun kv => kv.2)).sum := by
  simpa [lookupD_nil] using lookupD_foldl pairs [] k

theorem valsSum_foldl (l : List (Int × Int)) (m : List (Int × Int)) :
    valsSum (l.foldl (fun m kv => addTo m kv.1 kv.2) m)
      = valsSum m + (l.map (fun kv => kv.2)).sum := by
  induction l generalizing m with
  | nil => simp
  | cons hd tl ih => simp [List.foldl_cons, ih, valsSum_addTo]; omega

theorem valsSum_mapAccum (pairs : List (Int × Int)) :
    valsSum (mapAccum pairs) = (pairs.map (fun kv => kv.2)).sum := by
  have h := valsSum_foldl pairs []
  simpa [mapAccum, valsSum] using h

theorem keysOf_addTo (m : List (Int × Int)) (k v : Int) :
    keysOf (addTo m k v) = if k ∈ keysOf m then keysOf m else keysOf m ++ [k] := by
  induction m with
  | nil => simp [addTo, keysOf]
  | cons hd tl ih =>
    obtain ⟨k₀, v₀⟩ := hd
    by_cases h : k₀ = k
    · subst h
      simp [addTo, keysOf]
    · have hne : ¬k = k₀ := fun he => h he.symm
      simp only [addTo, if_neg h, keysOf, List.map_cons, List.mem_cons, hne, false_or]
      simp only [keysOf] at ih
      rw [ih]
      by_cases hk : k ∈ List.map (fun kv => kv.1) tl <;> simp [hk]

theorem mem_keysOf_foldl (l : List (Int × Int)) (m : List (Int × Int)) (k : Int) :
    k ∈ keysOf (l.foldl (fun m kv => addTo m kv.1 kv.2) m)
      ↔ k ∈ keysOf m ∨ k ∈ l.map (fun kv => kv.1) := by
  induction l generalizing m with
  | nil => simp
  | cons hd tl ih =>
    simp only [List.foldl_cons, ih, keysOf_addTo, List.map_cons, List.mem_cons]
    by_cases h : hd.1 ∈ keysOf m
    · simp only [if_pos h]
      constructor
      · rintro (hm | ht)
        · exact Or.inl hm
        · exact Or.inr (Or.inr ht)
      · rintro (hm | he | ht)
        · exact Or.inl hm
        · exact Or.inl (he ▸ h)
        · exact Or.inr ht
    · simp only [if_neg h, List.mem_append, List.mem_singleton]
      tauto

theorem mem_keysOf_mapAccum (pairs : List (Int × Int)) (k : Int) :
    k ∈ keysOf (mapAccum pairs) ↔ k ∈ pairs.map (fun kv => kv.1) := by
  simpa [keysOf] using mem_keysOf_foldl pairs [] k

theorem sum_map_add {α : Type} (l : List α) (f g : α → Int) :
    (l.map (fun a => f a + g a)).sum = (l.map f).sum + (l.map g).sum := by
  induction l with
  | nil => simp
  | cons hd tl ih => simp [ih]; ring

theorem lookupD_mapAccum_flatten (ls : List (List (Int × Int))) (k : Int) :
    lookupD (mapAccum ls.flatten) k
      = (ls.map (fun l => ((l.filter (fun kv => kv.1 = k)).map (fun kv => kv.2)).sum)).sum := by
  rw [lookupD_mapAccum]
  induction ls with
  | nil => simp
  | cons hd tl ih =>
    simp only [List.flatten_cons, List.filter_append, List.map_append,
      List.sum_append, List.map_cons, List.sum_cons]
    rw [ih]

theorem valsSum_mapAccum_flatten (ls : List (List (Int × Int))) :
    valsSum (mapAccum ls.flatten) = (ls.map valsSum).sum := by
  rw [valsSum_mapAccum]
  induction ls with
  | nil => simp
  | cons hd tl ih =>
    simp only [List.flatten_cons, List.map_append, List.sum_append,
      List.map_cons, List.sum_cons]
    rw [ih]
    rfl

theorem nodupKeys_addTo (m : List (Int × Int)) (k v : Int)
    (h : (keysOf m).Nodup) : (keysOf (addTo m k v)).Nodup := by
  rw [keysOf_addTo]
  by_cases hk : k ∈ keysOf m
  · simpa [hk] using h
  · rw [if_neg hk]
    refine List.Nodup.append h (List.nodup_singleton k) ?_
    intro a ha hb
    rw [List.mem_singleton] at hb
    exact hk (hb ▸ ha)

theorem nodupKeys_foldl (l : List (Int × Int)) (m : List (Int × Int))
    (h : (keysOf m).Nodup) :
    (keysOf (l.foldl (fun m kv => addTo m kv.1 kv.2) m)).Nodup := by
  induction l generalizing m with
  | nil => simpa using h
  | cons hd tl ih => exact ih _ (nodupKeys_addTo _ _ _ h)

theorem nodupKeys_mapAccum (pairs : List (Int × Int)) :
    (keysOf (mapAccum pairs)).Nodup := by
  refine nodupKeys_foldl pairs [] ?_
  simp [keysOf]

theorem sum_values_filter_eq_lookupD (m : List (Int × Int)) (k : Int)
    (h : (keysOf m).Nodup) :
    ((m.filter (fun kv => kv.1 = k)).map (fun kv => kv.2)).sum = lookupD m k := by
  induction m with
  | nil => simp [lookupD]
  | cons hd tl ih =>
    obtain ⟨k₀, v₀⟩ := hd
    have hcons : (k₀ :: keysOf tl).Nodup := h
    have htl : (keysOf tl).Nodup := hcons.of_cons
    by_cases hk : k₀ = k
    · subst hk
      have hnotin : k₀ ∉ keysOf tl := (List.nodup_cons.mp hcons).1
      have hnone : tl.filter (fun kv => (kv.1 = k₀ : Bool)) = [] := by
        refine List.filter_eq_nil_iff.mpr ?_
        intro kv hkv
        simp only [decide_eq_true_eq]
        intro he
        exact hnotin (he ▸ List.mem_map_of_mem (fun kv => kv.1) hkv)
      rw [List.filter_cons, lookupD_cons, if_pos rfl]
      simp [hnone]
    · rw [List.filter_cons, lookupD_cons, if_neg hk]
      simpa [hk] using ih htl

/-! ## Claim C6 — termination of the time-spent pagination loop -/

/-- Claim C6: the pagination loop of `get_time_spent_stats` stops exactly
when the provider signals `hasNextPage=false` or returns a missing/empty
`endCursor` (a missing `timelogs` object also stops it), accumulates all
returned nodes, and on 3 provider pages of 100/100/40 nodes with
`hasNextPage=false` on the last it collects exactly 240 nodes with no
fourth request issued. -/
theorem claim_C6_pagination :
    (∀ (p : TimelogsPage) (rest : List (Option TimelogsPage)),
       pageStops (some p) = true →
       runPagination (some p :: rest) = (p.nodes, p.totalSpentTime.getD 0, 1))
  ∧ (∀ (p : TimelogsPage) (rest : List (Option TimelogsPage)),
       pageStops (some p) = false →
       runPagination (some p :: rest)
         = (p.nodes ++ (runPagination rest).1,
            p.totalSpentTime.getD 0 + (runPagination rest).2.1,
            1 + (runPagination rest).2.2))
  ∧ (∀ rest : List (Option TimelogsPage), runPagination (none :: rest) = ([], 0, 1))
  ∧ (runPagination tsScenario).1.length = 240
  ∧ (runPagination tsScenario).2.2 = 3 := by
  refine ⟨?_, ?_, ?_, ?_, ?_⟩
  · intro p rest h
    simp only [pageStops, Bool.or_eq_true, Bool.not_eq_true'] at h
    rcases h with h | h
    · simp [runPagination, h]
    · cases hc : p.pageInfo.endCursor with
      | none => simp [runPagination, hc]
      | some c =>
        rw [hc] at h
        simp only [Option.getD, decide_eq_true_eq] at h
        cases hn : p.pageInfo.hasNextPage
        · simp [runPagination, hn]
        · simp [runPagination, hn, hc, h]
  · intro p rest h
    simp only [pageStops, Bool.or_eq_false_iff, Bool.not_eq_false',
      decide_eq_false_iff_not] at h
    obtain ⟨h1, h2⟩ := h
    cases hc : p.pageInfo.endCursor with
    | none => rw [hc] at h2; simp at h2
    | some c =>
      rw [hc] at h2
      simp only [Option.getD] at h2
      simp [runPagination, h1, hc, h2]
  · intro rest
    simp [runPagination]
  · rfl
  · rfl

/-- Witness for claim C6 at concrete pages: the first stop case on the
third scenario page, the continue case on the first, and the no-timelogs
case. -/
theorem claim_C6_pagination_witness :
    runPagination [some (tsPage 40 false none)] = (List.replicate 40 tsNode, 0, 1)
  ∧ runPagination [some (tsPage 100 true (some "c1")), some (tsPage 40 false none)]
      = (List.replicate 100 tsNode ++ List.replicate 40 tsNode, 0 + 0, 1 + 1)
  ∧ runPagination [none] = ([], 0, 1) := by
  refine ⟨?_, ?_, ?_⟩
  · exact claim_C6_pagination.1 (tsPage 40 false none) [] (by rfl)
  · have h := claim_C6_pagination.2.1 (tsPage 100 true (some "c1"))
      [some (tsPage 40 false none)] (by rfl)
    simpa using h
  · exact claim_C6_pagination.2.2.1 []

/-! ## Claim C7 — the total-hours computation of `get_time_spent_stats` -/

/-- Counterexample to claim C7 as stated: on a fetch whose accumulated
provider aggregate is 3600 seconds (non-zero) but whose nodes all fail
validation, `get_time_spent_stats` returns `total_time_spent_hours = 0`,
not the aggregate converted to hours (1). -/
theorem claim_C7_counterexample :
    (runPagination c7Pages).2.1 = 3600
  ∧ (getTimeSpentStats c7Pages).total_time_spent_hours = 0
  ∧ ¬ (getTimeSpentStats c7Pages).total_time_spent_hours
        = ((runPagination c7Pages).2.1 : ℚ) / 3600 := by
  refine ⟨rfl, rfl, ?_⟩
  intro h
  rw [show (getTimeSpentStats c7Pages).total_time_spent_hours = 0 from rfl,
    show (runPagination c7Pages).2.1 = 3600 from rfl] at h
  norm_num at h

/-- Claim C7 as amended: when at least one fetched node passes validation,
`total_time_spent_hours` is the accumulated provider aggregate divided by
3600 when that aggregate is non-zero, and otherwise the summed
`time_spent` of the retained entries divided by 3600; when no fetched
node passes validation the result is 0 regardless of the aggregate. -/
theorem claim_C7_total_hours (pages : List (Option TimelogsPage)) :
    (((runPagination pages).1.filterMap validateTimelogNode) ≠ [] →
       (getTimeSpentStats pages).total_time_spent_hours
         = (if (runPagination pages).2.1 = 0 then
              ((((runPagination pages).1.filterMap validateTimelogNode).map
                  (fun tl => tl.time_spent)).sum : ℚ)
            else ((runPagination pages).2.1 : ℚ)) / 3600)
  ∧ (((runPagination pages).1.filterMap validateTimelogNode) = [] →
       (getTimeSpentStats pages).total_time_spent_hours = 0) := by
  constructor
  · intro h
    have hall : ¬ (runPagination pages).1.isEmpty := by
      intro he
      rw [List.isEmpty_iff] at he
      rw [he] at h
      simp at h
    have hret : ¬ ((runPagination pages).1.filterMap validateTimelogNode).isEmpty := by
      rw [List.isEmpty_iff]
      exact h
    simp only [getTimeSpentStats, hall, hret, if_false, Bool.false_eq_true]
    by_cases hz : (runPagination pages).2.1 = 0
    · simp [hz]
      rfl
    · simp [hz]
  · intro h
    by_cases hall : (runPagination pages).1.isEmpty
    · simp [getTimeSpentStats, hall]
    · have hret : ((runPagination pages).1.filterMap validateTimelogNode).isEmpty := by
        rw [List.isEmpty_iff]
        exact h
      simp [getTimeSpentStats, hall, hret]

/-- Witness for the amended claim C7: a one-page fetch with a valid node
of 1800 seconds and a zero provider aggregate yields 0.5 hours, and the
all-invalid fetch of the counterexample yields 0 hours. -/
theorem claim_C7_total_hours_witness :
    (getTimeSpentStats
        [ some { nodes := [tsNode], totalSpentTime := some 0
                 pageInfo := { hasNextPage := false, endCursor := none } } ]
      ).total_time_spent_hours = (60 : ℚ) / 3600
  ∧ (getTimeSpentStats c7Pages).total_time_spent_hours = 0 := by
  constructor
  · have h := (claim_C7_total_hours
      [ some { nodes := [tsNode], totalSpentTime := some 0
               pageInfo := { hasNextPage := false, endCursor := none } } ]).1
      (by decide)
    simpa [runPagination, validateTimelogNode, tsNode] using h
  · exact (claim_C7_total_hours c7Pages).2 rfl

/-! ## Claims C3 and C4 — the performance cache -/

/-- Counterexample to claim C3 as stated: the entry stored at instant 0
with ttl 100 expires at 100, yet a lookup at instant 200 — after
`expires_at` but before any physical TTL deletion — returns the stale
payload 42 without recomputing (the recomputed flag is `false` and the
fresh value 99 is not used): the route's `find_one` filter carries no
`expires_at` condition. -/
theorem claim_C3_counterexample :
    storeCached ([] : List (CacheDoc Int)) 0 100 (some 1) none "general" 10 20 42
      = Except.ok [cacheDocEx]
  ∧ cacheDocEx.expires_at ≤ 200
  ∧ getUserPerformanceRoute [cacheDocEx] 200 100 1 10 20 99
      = Except.ok (42, [cacheDocEx], false) := by
  refine ⟨rfl, by decide, rfl⟩

/-- Claim C3 as amended: the lookup returns the stored payload whenever the
document is physically present, regardless of `expires_at`; an entry stops
being served only once the TTL monitor has physically removed it (the
monitor removes exactly the documents with `expires_at ≤ now`, so any
document found after a sweep at instant `t` satisfies `t < expires_at`);
a lookup immediately after `store(k, v, ttl)` returns `v`. -/
theorem claim_C3_cache_expiry {α : Type} (coll coll2 : List (CacheDoc α))
    (now ttl now2 ttl2 t uid sd ed : Int) (v compute : α) (doc : CacheDoc α) :
    (findOneGeneral coll uid sd ed = some doc →
       getUserPerformanceRoute coll now ttl uid sd ed compute
         = Except.ok (doc.data, coll, false))
  ∧ (storeCached coll now ttl (some uid) none "general" sd ed v = Except.ok coll2 →
     findOneGeneral coll uid sd ed = none →
     getUserPerformanceRoute coll2 now2 ttl2 uid sd ed compute
       = Except.ok (v, coll2, false))
  ∧ (findOneGeneral (ttlSweep t coll) uid sd ed = some doc →
       t < doc.expires_at) := by
  refine ⟨?_, ?_, ?_⟩
  · intro h
    simp [getUserPerformanceRoute, h]
  · intro hs hn
    have hcoll2 : coll2 = coll ++
        [{ user_id := some uid, project_id := none, qtype := "general"
           start_date := sd, end_date := ed, data := v, expires_at := now + ttl }] := by
      simp only [storeCached, insertOne] at hs
      by_cases hany : coll.any (fun e => decide (cacheKey e = cacheKey
          { user_id := some uid, project_id := none, qtype := "general"
            start_date := sd, end_date := ed, data := v, expires_at := now + ttl })) = true
      · rw [if_pos hany] at hs
        exact absurd hs (by simp)
      · rw [if_neg hany] at hs
        exact (Except.ok.injEq _ _).mp hs.symm |>.symm ▸ rfl
    subst hcoll2
    have hfind : findOneGeneral (coll ++
        [{ user_id := some uid, project_id := none, qtype := "general"
           start_date := sd, end_date := ed, data := v, expires_at := now + ttl }])
        uid sd ed = some
        { user_id := some uid, project_id := none, qtype := "general"
          start_date := sd, end_date := ed, data := v, expires_at := now + ttl } := by
      simp only [findOneGeneral] at hn ⊢
      rw [List.find?_append, hn]
      simp [List.find?]
    simp [getUserPerformanceRoute, hfind]
  · intro h
    have hmem : doc ∈ ttlSweep t coll := List.mem_of_find?_eq_some h
    have := (List.mem_filter.mp hmem).2
    simpa using this

/-- Witness for the amended claim C3 on concrete data: a hit returns the
stored 42; store-then-lookup returns the stored 42; and the document
surviving a sweep at instant 50 is unexpired. -/
theorem claim_C3_cache_expiry_witness :
    getUserPerformanceRoute [cacheDocEx] 0 100 1 10 20 (99 : Int)
      = Except.ok (42, [cacheDocEx], false)
  ∧ getUserPerformanceRoute [cacheDocEx] 5 100 1 10 20 (99 : Int)
      = Except.ok (42, [cacheDocEx], false)
  ∧ (50 : Int) < cacheDocEx.expires_at := by
  refine ⟨?_, ?_, ?_⟩
  · exact (claim_C3_cache_expiry [cacheDocEx] [cacheDocEx] 0 100 0 100 0 1 10 20
      42 99 cacheDocEx).1 rfl
  · exact (claim_C3_cache_expiry [] [cacheDocEx] 0 100 5 100 0 1 10 20
      42 99 cacheDocEx).2.1 rfl rfl
  · exact (claim_C3_cache_expiry [cacheDocEx] [cacheDocEx] 0 100 0 100 50 1 10 20
      42 99 cacheDocEx).2.2 rfl

/-- Counterexample to claim C4 as stated: storing for a key that already
has an entry does not overwrite — `insert_one` against the unique index
`user_project_date_range_idx` fails with a duplicate-key error and the
fresh payload 43 is never written. -/
theorem claim_C4_counterexample :
    cacheKey cacheDocEx = (some 1, none, "general", 10, 20)
  ∧ storeCached [cacheDocEx] 50 100 (some 1) none "general" 10 20 (43 : Int)
      = Except.error "duplicate key" :=
  ⟨rfl, rfl⟩

/-- Claim C4 as amended: `store` appends a fresh entry carrying
`expires_at = now + ttl` when no entry for the exact key exists; when an
entry for the exact key already exists, `store` fails with a
duplicate-key error (plain `insert_one` under the unique index) instead
of overwriting. -/
theorem claim_C4_store_insert {α : Type} (coll : List (CacheDoc α))
    (now ttl : Int) (uid pid : Option Int) (ty : String) (sd ed : Int)
    (payload : α) :
    ((∀ e ∈ coll, cacheKey e ≠ (uid, pid, ty, sd, ed)) →
       storeCached coll now ttl uid pid ty sd ed payload
         = Except.ok (coll ++
             [{ user_id := uid, project_id := pid, qtype := ty
                start_date := sd, end_date := ed, data := payload
                expires_at := now + ttl }]))
  ∧ ((∃ e ∈ coll, cacheKey e = (uid, pid, ty, sd, ed)) →
       storeCached coll now ttl uid pid ty sd ed payload
         = Except.error "duplicate key") := by
  constructor
  · intro h
    simp only [storeCached, insertOne]
    rw [if_neg]
    intro hany
    rw [List.any_eq_true] at hany
    obtain ⟨e, he, hkey⟩ := hany
    rw [decide_eq_true_eq] at hkey
    exact h e he hkey
  · intro h
    obtain ⟨e, he, hkey⟩ := h
    simp only [storeCached, insertOne]
    rw [if_pos]
    rw [List.any_eq_true]
    exact ⟨e, he, by rw [decide_eq_true_eq]; exact hkey⟩

/-- Witness for the amended claim C4: a fresh store into the empty
collection appends the document; a second store for the same key fails
with the duplicate-key error. -/
theorem claim_C4_store_insert_witness :
    storeCached ([] : List (CacheDoc Int)) 0 100 (some 1) none "general" 10 20 42
      = Except.ok [cacheDocEx]
  ∧ storeCached [cacheDocEx] 50 100 (some 1) none "general" 10 20 (43 : Int)
      = Except.error "duplicate key" := by
  constructor
  · exact (claim_C4_store_insert [] 0 100 (some 1) none "general" 10 20 42).1
      (by intro e he; simp at he)
  · exact (claim_C4_store_insert [cacheDocEx] 50 100 (some 1) none "general" 10 20 43).2
      ⟨cacheDocEx, List.mem_singleton.mpr rfl, rfl⟩

/-! ### Laws of job registration and reconciliation -/

theorem self_mem_addJobReplace (js : List Job) (j : Job) : j ∈ addJobReplace js j := by
  unfold addJobReplace
  by_cases hany : js.any (fun o => decide (o.sid = j.sid ∧ o.manual = j.manual)) = true
  · rw [if_pos hany]
    rw [List.any_eq_true] at hany
    obtain ⟨o, ho, hcond⟩ := hany
    rw [decide_eq_true_eq] at hcond
    exact List.mem_map.mpr ⟨o, ho, by rw [if_pos hcond]⟩
  · rw [if_neg hany]
    exact List.mem_append.mpr (Or.inr (List.mem_singleton.mpr rfl))

theorem mem_addJobReplace (js : List Job) (j' j : Job) (h : j ∈ addJobReplace js j') :
    j ∈ js ∨ j = j' := by
  unfold addJobReplace at h
  by_cases hany : js.any (fun o => decide (o.sid = j'.sid ∧ o.manual = j'.manual)) = true
  · rw [if_pos hany] at h
    obtain ⟨o, ho, heq⟩ := List.mem_map.mp h
    by_cases hc : o.sid = j'.sid ∧ o.manual = j'.manual
    · rw [if_pos hc] at heq
      exact Or.inr heq.symm
    · rw [if_neg hc] at heq
      exact Or.inl (heq ▸ ho)
  · rw [if_neg hany] at h
    rcases List.mem_append.mp h with h1 | h2
    · exact Or.inl h1
    · exact Or.inr (List.mem_singleton.mp h2)

theorem mem_addJobReplace_of_mem (js : List Job) (j' j : Job) (hj : j ∈ js)
    (hrepl : j.sid = j'.sid ∧ j.manual = j'.manual → j' = j) :
    j ∈ addJobReplace js j' := by
  unfold addJobReplace
  by_cases hany : js.any (fun o => decide (o.sid = j'.sid ∧ o.manual = j'.manual)) = true
  · rw [if_pos hany]
    refine List.mem_map.mpr ⟨j, hj, ?_⟩
    by_cases hc : j.sid = j'.sid ∧ j.manual = j'.manual
    · rw [if_pos hc]
      exact hrepl hc
    · rw [if_neg hc]
  · rw [if_neg hany]
    exact List.mem_append.mpr (Or.inl hj)

theorem mem_manualFold (sids : List String) (js : List Job) (now : Int) (j : Job)
    (h : j ∈ sids.foldl
      (fun js sid => addJobReplace js { sid := sid, manual := true, kind := .date now }) js) :
    j ∈ js ∨ ∃ sid ∈ sids, j = { sid := sid, manual := true, kind := .date now } := by
  induction sids generalizing js with
  | nil => exact Or.inl h
  | cons hd tl ih =>
    rcases ih _ h with hin | ⟨sid, hsid, rfl⟩
    · rcases mem_addJobReplace _ _ _ hin with hin' | rfl
      · exact Or.inl hin'
      · exact Or.inr ⟨hd, List.mem_cons_self _ _, rfl⟩
    · exact Or.inr ⟨sid, List.mem_cons_of_mem _ hsid, rfl⟩

theorem manualFold_preserve (sids : List String) (js : List Job) (now : Int) (s0 : String)
    (h : ({ sid := s0, manual := true, kind := .date now } : Job) ∈ js) :
    ({ sid := s0, manual := true, kind := .date now } : Job)
      ∈ sids.foldl
          (fun js sid => addJobReplace js { sid := sid, manual := true, kind := .date now }) js := by
  induction sids generalizing js with
  | nil => exact h
  | cons hd tl ih =>
    refine ih _ (mem_addJobReplace_of_mem _ _ _ h ?_)
    intro hc
    have h1 : s0 = hd := hc.1
    rw [h1]

theorem manualJob_mem_foldl (sids : List String) (js : List Job) (now : Int)
    (sid : String) (h : sid ∈ sids) :
    ({ sid := sid, manual := true, kind := .date now } : Job)
      ∈ sids.foldl
          (fun js s => addJobReplace js { sid := s, manual := true, kind := .date now }) js := by
  induction sids generalizing js with
  | nil => exact absurd h (List.not_mem_nil _)
  | cons hd tl ih =>
    rcases List.mem_cons.mp h with heq | htl
    · subst heq
      exact manualFold_preserve tl _ now sid (self_mem_addJobReplace js _)
    · exact ih _ htl

theorem sid_not_mem_active (schedules : List ScheduleRecord) (s : ScheduleRecord)
    (hnd : (schedules.map (fun x => x.sid)).Nodup) (hs : s ∈ schedules)
    (hact : s.active = false) :
    s.sid ∉ (schedules.filter (fun x => x.active)).map (fun x => x.sid) := by
  intro hmem
  obtain ⟨y, hy, hsid⟩ := List.mem_map.mp hmem
  have hy' := List.mem_filter.mp hy
  have hys : y = s := List.inj_on_of_nodup_map hnd hy'.1 hs hsid
  rw [hys, hact] at hy'
  exact Bool.false_ne_true hy'.2

theorem manual_trigger_sid_active (schedules : List ScheduleRecord) (sid : String)
    (h : sid ∈ (schedules.filter
        (fun x => x.manual_trigger_at.isSome && x.active)).map (fun x => x.sid)) :
    sid ∈ (schedules.filter (fun x => x.active)).map (fun x => x.sid) := by
  obtain ⟨y, hy, rfl⟩ := List.mem_map.mp h
  have hy' := List.mem_filter.mp hy
  have hact : y.active = true := by
    have h2 := hy'.2
    rw [Bool.and_eq_true] at h2
    exact h2.2
  exact List.mem_map.mpr ⟨y, List.mem_filter.mpr ⟨hy'.1, hact⟩, rfl⟩

theorem sid_not_mem_manual (schedules : List ScheduleRecord) (s : ScheduleRecord)
    (hnd : (schedules.map (fun x => x.sid)).Nodup) (hs : s ∈ schedules)
    (hact : s.active = false) :
    s.sid ∉ (schedules.filter
        (fun x => x.manual_trigger_at.isSome && x.active)).map (fun x => x.sid) :=
  fun hmem => sid_not_mem_active schedules s hnd hs hact
    (manual_trigger_sid_active schedules s.sid hmem)

/-! ## Claim C8 — inactive schedules never fire -/

/-- Claim C8: a schedule with `active=false` never produces a fired
report: the reconciliation pass registers no job for it and leaves no job
(cron or manual) carrying its id, its `manual_trigger_at` flag does not
enqueue an immediate run, and a fire that finds it inactive removes the
job and returns without sending. -/
theorem claim_C8_inactive_never_fires
    (schedules : List ScheduleRecord) (jobs : List Job) (now : Int)
    (s : ScheduleRecord)
    (hnd : (schedules.map (fun x => x.sid)).Nodup)
    (hs : s ∈ schedules) (hact : s.active = false) :
    (∀ j ∈ (syncScheduledJobs schedules jobs now).jobs, j.sid ≠ s.sid)
  ∧ s.sid ∉ (syncScheduledJobs schedules jobs now).manual_enqueued
  ∧ (∀ env : FireEnv, env.schedule = some s →
       (sendScheduledReport env now).sent = false
       ∧ (sendScheduledReport env now).removedJob = true) := by
  have hnotact := sid_not_mem_active schedules s hnd hs hact
  refine ⟨?_, ?_, ?_⟩
  · intro j hj heq
    simp only [syncScheduledJobs] at hj
    rcases mem_manualFold _ _ _ _ hj with h2 | ⟨sid, hsid, heqj⟩
    · have hfl := (List.mem_filter.mp h2).2
      rw [decide_eq_true_eq] at hfl
      rw [heq] at hfl
      exact hnotact hfl
    · have hsact := manual_trigger_sid_active schedules sid hsid
      have : sid = s.sid := by rw [← heq, heqj]
      rw [this] at hsact
      exact hnotact hsact
  · intro hmem
    simp only [syncScheduledJobs] at hmem
    exact sid_not_mem_manual schedules s hnd hs hact hmem
  · intro env he
    constructor
    · simp [sendScheduledReport, he, hact]
    · simp [sendScheduledReport, he, hact]

/-- Witness for claim C8: reconciliation over the one inactive schedule
removes its stale job and enqueues no manual run, and a fire on it does
not send. -/
theorem claim_C8_inactive_never_fires_witness :
    schedInactiveEx.active = false
  ∧ schedInactiveEx.sid ∉
      (syncScheduledJobs [schedInactiveEx] [staleJobEx] 0).manual_enqueued
  ∧ staleJobEx ∉ (syncScheduledJobs [schedInactiveEx] [staleJobEx] 0).jobs
  ∧ (sendScheduledReport envInactiveEx 0).sent = false := by
  refine ⟨rfl, ?_, ?_, ?_⟩
  · exact (claim_C8_inactive_never_fires [schedInactiveEx] [staleJobEx] 0
      schedInactiveEx (by simp) (List.mem_singleton.mpr rfl) rfl).2.1
  · intro hm
    exact (claim_C8_inactive_never_fires [schedInactiveEx] [staleJobEx] 0
      schedInactiveEx (by simp) (List.mem_singleton.mpr rfl) rfl).1 staleJobEx hm rfl
  · exact ((claim_C8_inactive_never_fires [schedInactiveEx] [staleJobEx] 0
      schedInactiveEx (by simp) (List.mem_singleton.mpr rfl) rfl).2.2 envInactiveEx rfl).1

/-! ## Claim C9 — failure recording and isolation of fired jobs -/

/-- Claim C9: for a fired report job on an active schedule with
recipients, every failure (missing GitLab configuration, computation
failure, mail-configuration error, send exception) is recorded on the
schedule as `last_error` and nothing is sent; a time-spent failure alone
changes nothing; a successful send clears `last_error`, stamps
`last_sent_at` and stores the rendered body; and each job of a batch is a
function of its own environment only, so one schedule's failure cannot
affect another schedule's job.  The model of `send_scheduled_report` is a
total function: no failure path raises past the job boundary. -/
theorem claim_C9_failure_recorded
    (env : FireEnv) (now : Int) (s : ScheduleRecord)
    (hsched : env.schedule = some s) (hact : s.active = true)
    (hrec : s.to_recipients ≠ []) :
    (env.gitlab_config = false →
       (sendScheduledReport env now).sent = false
       ∧ (sendScheduledReport env now).update
           = .recordError "GitLab admin token is not configured")
  ∧ (∀ m, env.gitlab_config = true → env.perf = .error m →
       (sendScheduledReport env now).sent = false
       ∧ (sendScheduledReport env now).update = .recordError m
       ∧ (applyUpdate s (sendScheduledReport env now).update now).last_error = some m)
  ∧ (∀ m, env.gitlab_config = true → env.perf = .ok () → env.mail_config = .error m →
       (sendScheduledReport env now).sent = false
       ∧ (sendScheduledReport env now).update = .recordError m
       ∧ (applyUpdate s (sendScheduledReport env now).update now).last_error = some m)
  ∧ (∀ m, env.gitlab_config = true → env.perf = .ok () → env.mail_config = .ok () →
       env.send = .error m →
       (sendScheduledReport env now).sent = false
       ∧ (sendScheduledReport env now).update = .recordError m
       ∧ (applyUpdate s (sendScheduledReport env now).update now).last_error = some m)
  ∧ (env.gitlab_config = true → env.perf = .ok () → env.mail_config = .ok () →
       env.send = .ok () →
       (sendScheduledReport env now).sent = true
       ∧ (applyUpdate s (sendScheduledReport env now).update now).last_error = none
       ∧ (applyUpdate s (sendScheduledReport env now).update now).last_sent_at = some now
       ∧ (applyUpdate s (sendScheduledReport env now).update now).last_email_content
           = some env.body)
  ∧ (∀ b, sendScheduledReport { env with time_spent_ok := b } now
        = sendScheduledReport env now)
  ∧ (∀ (envs : List FireEnv) (i : Nat) (hi : i < envs.length),
       (runJobs envs now).get ⟨i, by simpa [runJobs] using hi⟩
         = sendScheduledReport (envs.get ⟨i, hi⟩) now) := by
  have hremp : s.to_recipients.isEmpty = false := by
    rw [← Bool.not_eq_true, List.isEmpty_iff]
    exact hrec
  refine ⟨?_, ?_, ?_, ?_, ?_, ?_, ?_⟩
  · intro hg
    constructor
    · simp [sendScheduledReport, hsched, hact, hremp, hg]
    · simp [sendScheduledReport, hsched, hact, hremp, hg]
  · intro m hg hp
    refine ⟨?_, ?_, ?_⟩
    · simp [sendScheduledReport, hsched, hact, hremp, hg, hp]
    · simp [sendScheduledReport, hsched, hact, hremp, hg, hp]
    · simp [sendScheduledReport, applyUpdate, hsched, hact, hremp, hg, hp]
  · intro m hg hp hm
    refine ⟨?_, ?_, ?_⟩
    · simp [sendScheduledReport, hsched, hact, hremp, hg, hp, hm]
    · simp [sendScheduledReport, hsched, hact, hremp, hg, hp, hm]
    · simp [sendScheduledReport, applyUpdate, hsched, hact, hremp, hg, hp, hm]
  · intro m hg hp hm hsend
    refine ⟨?_, ?_, ?_⟩
    · simp [sendScheduledReport, hsched, hact, hremp, hg, hp, hm, hsend]
    · simp [sendScheduledReport, hsched, hact, hremp, hg, hp, hm, hsend]
    · simp [sendScheduledReport, applyUpdate, hsched, hact, hremp, hg, hp, hm, hsend]
  · intro hg hp hm hsend
    refine ⟨?_, ?_, ?_, ?_⟩
    · simp [sendScheduledReport, hsched, hact, hremp, hg, hp, hm, hsend]
    · simp [sendScheduledReport, applyUpdate, hsched, hact, hremp, hg, hp, hm, hsend]
    · simp [sendScheduledReport, applyUpdate, hsched, hact, hremp, hg, hp, hm, hsend]
    · simp [sendScheduledReport, applyUpdate, hsched, hact, hremp, hg, hp, hm, hsend]
  · intro b
    rfl
  · intro envs i hi
    simp [runJobs]

/-- Witness for claim C9: the all-success environment sends and clears the
old error, the failing-send environment records the error without
sending. -/
theorem claim_C9_failure_recorded_witness :
    (sendScheduledReport envOkEx 11).sent = true
  ∧ (applyUpdate schedActiveEx (sendScheduledReport envOkEx 11).update 11).last_error = none
  ∧ (applyUpdate schedActiveEx (sendScheduledReport envOkEx 11).update 11).last_sent_at
      = some 11
  ∧ (sendScheduledReport envSendFailEx 11).sent = false
  ∧ (applyUpdate schedActiveEx (sendScheduledReport envSendFailEx 11).update 11).last_error
      = some "smtp down" := by
  have hok := claim_C9_failure_recorded envOkEx 11 schedActiveEx rfl rfl
    (by simp [schedActiveEx])
  have hfail := claim_C9_failure_recorded envSendFailEx 11 schedActiveEx rfl rfl
    (by simp [schedActiveEx])
  refine ⟨?_, ?_, ?_, ?_, ?_⟩
  · exact (hok.2.2.2.2.1 rfl rfl rfl rfl).1
  · exact (hok.2.2.2.2.1 rfl rfl rfl rfl).2.1
  · exact (hok.2.2.2.2.1 rfl rfl rfl rfl).2.2.1
  · exact (hfail.2.2.2.1 "smtp down" rfl rfl rfl rfl).1
  · exact (hfail.2.2.2.1 "smtp down" rfl rfl rfl rfl).2.2

/-! ## Claim C10 — a pending manual trigger survives deactivation -/

/-- Claim C10: the reconciliation pass leaves the document of an inactive
schedule untouched even when its `manual_trigger_at` is set (the flag is
cleared only when a manual run is actually enqueued, which requires
`active`); consequently, once the schedule is re-activated with the flag
still set, the first reconciliation pass enqueues the immediate manual
run and clears the flag. -/
theorem claim_C10_manual_trigger_frame
    (schedules schedules₂ : List ScheduleRecord) (jobs jobs₂ : List Job)
    (now now₂ : Int) (s : ScheduleRecord) (t : Int)
    (hnd : (schedules.map (fun x => x.sid)).Nodup)
    (hnd₂ : (schedules₂.map (fun x => x.sid)).Nodup)
    (hs : s ∈ schedules) (hact : s.active = false)
    (hflag : s.manual_trigger_at = some t)
    (hs₂ : { s with active := true } ∈ schedules₂) :
    s ∈ (syncScheduledJobs schedules jobs now).schedules
  ∧ (∀ x ∈ (syncScheduledJobs schedules jobs now).schedules, x.sid = s.sid → x = s)
  ∧ s.sid ∉ (syncScheduledJobs schedules jobs now).manual_enqueued
  ∧ s.sid ∈ (syncScheduledJobs schedules₂ jobs₂ now₂).manual_enqueued
  ∧ ({ sid := s.sid, manual := true, kind := .date now₂ } : Job)
      ∈ (syncScheduledJobs schedules₂ jobs₂ now₂).jobs
  ∧ (∀ x ∈ (syncScheduledJobs schedules₂ jobs₂ now₂).schedules,
       x.sid = s.sid → x.manual_trigger_at = none) := by
  have hntrig := sid_not_mem_manual schedules s hnd hs hact
  have htrig₂ : s.sid ∈ (schedules₂.filter
      (fun x => x.manual_trigger_at.isSome && x.active)).map (fun x => x.sid) := by
    refine List.mem_map.mpr ⟨{ s with active := true }, ?_, rfl⟩
    refine List.mem_filter.mpr ⟨hs₂, ?_⟩
    simp [hflag]
  refine ⟨?_, ?_, ?_, ?_, ?_, ?_⟩
  · simp only [syncScheduledJobs]
    refine List.mem_map.mpr ⟨s, hs, ?_⟩
    simp [hntrig]
  · intro x hx hsid
    simp only [syncScheduledJobs] at hx
    obtain ⟨y, hy, hmap⟩ := List.mem_map.mp hx
    by_cases hc : y.sid ∈ (schedules.filter
        (fun z => z.manual_trigger_at.isSome && z.active)).map (fun z => z.sid)
    · rw [if_pos (by simpa using hc)] at hmap
      have hysid : y.sid = s.sid := by rw [← hsid, ← hmap]
      have hy_s : y = s := List.inj_on_of_nodup_map hnd hy hs hysid
      rw [hy_s] at hc
      exact absurd hc hntrig
    · rw [if_neg (by simpa using hc)] at hmap
      have hysid : y.sid = s.sid := by rw [← hsid, ← hmap]
      have hy_s : y = s := List.inj_on_of_nodup_map hnd hy hs hysid
      rw [← hmap, hy_s]
  · intro hmem
    simp only [syncScheduledJobs] at hmem
    exact hntrig hmem
  · simp only [syncScheduledJobs]
    exact htrig₂
  · simp only [syncScheduledJobs]
    exact manualJob_mem_foldl _ _ _ _ htrig₂
  · intro x hx hsid
    simp only [syncScheduledJobs] at hx
    obtain ⟨y, hy, hmap⟩ := List.mem_map.mp hx
    by_cases hc : y.sid ∈ (schedules₂.filter
        (fun z => z.manual_trigger_at.isSome && z.active)).map (fun z => z.sid)
    · rw [if_pos (by simpa using hc)] at hmap
      rw [← hmap]
    · rw [if_neg (by simpa using hc)] at hmap
      have hysid : y.sid = ({ s with active := true } : ScheduleRecord).sid := by
        rw [← hmap] at hsid
        exact hsid
      have hy_s : y = { s with active := true } :=
        List.inj_on_of_nodup_map hnd₂ hy hs₂ hysid
      rw [hy_s] at hc
      exact absurd htrig₂ hc

/-- Witness for claim C10: the inactive schedule survives reconciliation
with its flag intact, and after re-activation the first pass enqueues the
manual run and clears the flag on the stored document. -/
theorem claim_C10_manual_trigger_frame_witness :
    schedInactiveEx ∈ (syncScheduledJobs [schedInactiveEx] [] 3).schedules
  ∧ schedInactiveEx.sid ∉ (syncScheduledJobs [schedInactiveEx] [] 3).manual_enqueued
  ∧ schedInactiveEx.sid ∈ (syncScheduledJobs [schedReactivatedEx] [] 7).manual_enqueued
  ∧ ({ sid := schedInactiveEx.sid, manual := true, kind := .date 7 } : Job)
      ∈ (syncScheduledJobs [schedReactivatedEx] [] 7).jobs
  ∧ ({ schedReactivatedEx with manual_trigger_at := none, updated_at := 7 }
        : ScheduleRecord).manual_trigger_at = none := by
  have h := claim_C10_manual_trigger_frame [schedInactiveEx] [schedReactivatedEx]
    [] [] 3 7 schedInactiveEx 5 (by simp) (by simp)
    (List.mem_singleton.mpr rfl) rfl rfl (List.mem_singleton.mpr rfl)
  refine ⟨h.1, h.2.2.1, h.2.2.2.1, h.2.2.2.2.1, ?_⟩
  exact h.2.2.2.2.2 _ (by
    rw [show (syncScheduledJobs [schedReactivatedEx] [] 7).schedules
      = [{ schedReactivatedEx with manual_trigger_at := none, updated_at := 7 }] from rfl]
    exact List.mem_singleton.mpr rfl) rfl

/-! ## Claims C1, C2, C5 — the project performance aggregator -/

theorem insertSorted_perm {α : Type} (le : α → α → Bool) (x : α) (l : List α) :
    (insertSorted le x l).Perm (x :: l) := by
  induction l with
  | nil => exact List.Perm.refl _
  | cons y ys ih =>
    by_cases h : le x y = true
    · simp [insertSorted, h]
    · simp only [insertSorted, h, if_false, Bool.false_eq_true]
      exact (List.Perm.cons y ih).trans (List.Perm.swap x y ys)

theorem sortBy_perm {α : Type} (le : α → α → Bool) (l : List α) :
    (sortBy le l).Perm l := by
  induction l with
  | nil => exact List.Perm.refl _
  | cons x xs ih =>
    exact (insertSorted_perm le x (sortBy le xs)).trans (List.Perm.cons x ih)

theorem retainCommit_eq_specRetain (user_emails : List String) (since untl : Int)
    (c : Commit) :
    retainCommit user_emails since untl c = specRetain user_emails since untl c := by
  by_cases h1 : c.author_email ∈ user_emails
  · by_cases h2 : since ≤ parseGitlabDatetime c.authored_date
    · by_cases h3 : parseGitlabDatetime c.authored_date ≤ untl
      · by_cases h4 : c.parent_ids.length < 2
        · simp [retainCommit, specRetain, h1, h2, h3, h4]
        · simp [retainCommit, specRetain, h1, h2, h3, h4]
      · simp [retainCommit, specRetain, h1, h2, h3]
    · simp [retainCommit, specRetain, h1, h2]
  · simp [retainCommit, specRetain, h1]

theorem userCommits_eq_retained (user_emails : List String)
    (query : String → Int → Int → List Commit) (safeDateOffset since untl : Int) :
    (fetchedCommits user_emails query since (untl + safeDateOffset * 86400)).filter
        (retainCommit user_emails since untl)
      = retainedCommits user_emails query safeDateOffset since untl :=
  List.filter_congr (fun c _ => retainCommit_eq_specRetain user_emails since untl c)

theorem sortedOf_perm_retained (user_emails : List String)
    (query : String → Int → Int → List Commit) (safeDateOffset since untl : Int) :
    (sortedOf user_emails query safeDateOffset since untl).Perm
      (retainedCommits user_emails query safeDateOffset since untl) := by
  refine (sortBy_perm _ _).trans ?_
  rw [userCommits_eq_retained]

theorem sum_map_one {α : Type} (l : List α) :
    (l.map (fun _ => (1 : Int))).sum = l.length := by
  induction l with
  | nil => simp
  | cons hd tl ih =>
    simp [ih]
    omega

theorem lookupD_mapAccum_map {α : Type} (l : List α) (key : α → Int) (f : α → Int)
    (d : Int) :
    lookupD (mapAccum (l.map (fun c => (key c, f c)))) d
      = ((l.filter (fun c => key c = d)).map f).sum := by
  rw [lookupD_mapAccum, List.filter_map, List.map_map]
  rfl

theorem valsSum_mapAccum_map {α : Type} (l : List α) (key : α → Int) (f : α → Int) :
    valsSum (mapAccum (l.map (fun c => (key c, f c)))) = (l.map f).sum := by
  rw [valsSum_mapAccum, List.map_map]
  rfl

theorem mem_keysOf_mapAccum_map {α : Type} (l : List α) (key : α → Int) (f : α → Int)
    (d : Int) :
    d ∈ keysOf (mapAccum (l.map (fun c => (key c, f c)))) ↔ d ∈ l.map key := by
  rw [mem_keysOf_mapAccum, List.map_map]
  rfl

/-- Claim C1: in `get_project_performance_stats`, the commits contributing
to the totals, the daily buckets and the merge-request details are exactly
the fetched commits retained by the claim's condition (`author_email` in
the identity set, parent count < 2, canonical authored date within
`[since, until]` inclusive): the total commit counter and every per-day
bucket count the retained commits only, every day present in the series
is the day of a retained commit, and every commit in a merge-request
detail is retained — in particular no commit with two or more parents
appears anywhere, even though the provider query's upper bound is widened
by the safe offset. -/
theorem claim_C1_commit_retention (user_emails : List String)
    (query : String → Int → Int → List Commit)
    (mrsOf : String → List MergeRequestRef)
    (safeDateOffset since untl : Int) :
    (getProjectPerformanceStats user_emails query mrsOf safeDateOffset since untl).commits
      = (retainedCommits user_emails query safeDateOffset since untl).length
  ∧ (∀ d, lookupD (getProjectPerformanceStats user_emails query mrsOf
          safeDateOffset since untl).daily_commit_counts d
      = (((retainedCommits user_emails query safeDateOffset since untl).filter
          (fun c => parseGitlabDatetime c.authored_date = d)).length : Int))
  ∧ (∀ d ∈ keysOf (getProjectPerformanceStats user_emails query mrsOf
          safeDateOffset since untl).daily_commit_counts,
       ∃ c ∈ retainedCommits user_emails query safeDateOffset since untl,
         parseGitlabDatetime c.authored_date = d)
  ∧ (∀ l, (getProjectPerformanceStats user_emails query mrsOf
          safeDateOffset since untl).merge_requests = some l →
       ∀ mrd ∈ l, ∀ cs, mrd.commits = some cs → ∀ c ∈ cs,
         c ∈ retainedCommits user_emails query safeDateOffset since untl
         ∧ c.parent_ids.length < 2) := by
  have hperm := sortedOf_perm_retained user_emails query safeDateOffset since untl
  refine ⟨?_, ?_, ?_, ?_⟩
  · show ((fetchedCommits user_emails query since
      (untl + safeDateOffset * 86400)).filter (retainCommit user_emails since untl)).length = _
    rw [userCommits_eq_retained]
  · intro d
    have h1 : (getProjectPerformanceStats user_emails query mrsOf
          safeDateOffset since untl).daily_commit_counts
        = mapAccum ((sortedOf user_emails query safeDateOffset since untl).map
            (fun c => (parseGitlabDatetime c.authored_date, 1))) := rfl
    rw [h1, lookupD_mapAccum_map, sum_map_one]
    have hlen := (hperm.filter
      (fun c => decide (parseGitlabDatetime c.authored_date = d))).length_eq
    exact_mod_cast hlen
  · intro d hd
    have h1 : (getProjectPerformanceStats user_emails query mrsOf
          safeDateOffset since untl).daily_commit_counts
        = mapAccum ((sortedOf user_emails query safeDateOffset since untl).map
            (fun c => (parseGitlabDatetime c.authored_date, 1))) := rfl
    rw [h1, mem_keysOf_mapAccum_map] at hd
    obtain ⟨c, hc, hcd⟩ := List.mem_map.mp hd
    exact ⟨c, hperm.mem_iff.mp hc, hcd⟩
  · intro l hl mrd hmrd cs hcs c hc
    have hD : (getProjectPerformanceStats user_emails query mrsOf
          safeDateOffset since untl).merge_requests
        = (match (buildMergeRequests mrsOf
              (sortedOf user_emails query safeDateOffset since untl)).map
              (mkMergeRequestDetails ((fetchedCommits user_emails query since
                (untl + safeDateOffset * 86400)).filter
                  (retainCommit user_emails since untl))) with
           | [] => none
           | x => some x) := rfl
    rw [hD] at hl
    have hlD : l = (buildMergeRequests mrsOf
        (sortedOf user_emails query safeDateOffset since untl)).map
        (mkMergeRequestDetails ((fetchedCommits user_emails query since
          (untl + safeDateOffset * 86400)).filter
            (retainCommit user_emails since untl))) := by
      cases hE : (buildMergeRequests mrsOf
          (sortedOf user_emails query safeDateOffset since untl)).map
          (mkMergeRequestDetails ((fetchedCommits user_emails query since
            (untl + safeDateOffset * 86400)).filter
              (retainCommit user_emails since untl))) with
      | nil => rw [hE] at hl; exact absurd hl (by simp)
      | cons a tl =>
        rw [hE] at hl
        simpa using hl.symm
    subst hlD
    obtain ⟨entry, _, hmk⟩ := List.mem_map.mp hmrd
    have hcs' : cs = ((fetchedCommits user_emails query since
        (untl + safeDateOffset * 86400)).filter
          (retainCommit user_emails since untl)).filter
        (fun x => decide (x.id ∈ entry.2.2)) := by
      rw [← hmk] at hcs
      have hcomm : (mkMergeRequestDetails ((fetchedCommits user_emails query since
          (untl + safeDateOffset * 86400)).filter
            (retainCommit user_emails since untl)) entry).commits
          = (match ((fetchedCommits user_emails query since
              (untl + safeDateOffset * 86400)).filter
                (retainCommit user_emails since untl)).filter
              (fun x => decide (x.id ∈ entry.2.2)) with
             | [] => none
             | x => some x) := rfl
      rw [hcomm] at hcs
      cases hE : ((fetchedCommits user_emails query since
          (untl + safeDateOffset * 86400)).filter
            (retainCommit user_emails since untl)).filter
          (fun x => decide (x.id ∈ entry.2.2)) with
      | nil => rw [hE] at hcs; exact absurd hcs (by simp)
      | cons a tl =>
        rw [hE] at hcs
        simpa using (by simpa using hcs : a :: tl = cs).symm
    rw [hcs'] at hc
    have hcuser : c ∈ (fetchedCommits user_emails query since
        (untl + safeDateOffset * 86400)).filter
          (retainCommit user_emails since untl) := (List.mem_filter.mp hc).1
    rw [userCommits_eq_retained] at hcuser
    refine ⟨hcuser, ?_⟩
    have hspec := (List.mem_filter.mp hcuser).2
    simp only [specRetain, Bool.and_eq_true, decide_eq_true_eq] at hspec
    exact hspec.1.1.2

/-- Witness for claim C1 on the three-commit example: only the good commit
is retained (not the merge commit, not the out-of-window commit), the
2024-01-02 bucket counts exactly the retained commits, and the
merge-request detail carries only retained, non-merge commits. -/
theorem claim_C1_commit_retention_witness :
    (getProjectPerformanceStats ["a@x"] exQuery exMrs 3 exSince exSince).commits
      = (retainedCommits ["a@x"] exQuery 3 exSince exSince).length
  ∧ lookupD (getProjectPerformanceStats ["a@x"] exQuery exMrs 3 exSince
        exSince).daily_commit_counts exSince
      = (((retainedCommits ["a@x"] exQuery 3 exSince exSince).filter
          (fun c => parseGitlabDatetime c.authored_date = exSince)).length : Int)
  ∧ (∃ c ∈ retainedCommits ["a@x"] exQuery 3 exSince exSince,
       parseGitlabDatetime c.authored_date = exSince)
  ∧ (cGood ∈ retainedCommits ["a@x"] exQuery 3 exSince exSince
     ∧ cGood.parent_ids.length < 2) := by
  have h := claim_C1_commit_retention ["a@x"] exQuery exMrs 3 exSince exSince
  exact ⟨h.1, h.2.1 exSince, h.2.2.1 exSince (by decide),
    h.2.2.2 [mrdEx] (by rfl) mrdEx (List.mem_singleton.mpr rfl) [cGood] (by rfl)
      cGood (List.mem_singleton.mpr rfl)⟩

/-- Daily-series invariants of one project aggregation: per-day
`changes = additions + deletions`, and each daily series sums to its
total counter. -/
theorem project_daily_invariants (user_emails : List String)
    (query : String → Int → Int → List Commit)
    (mrsOf : String → List MergeRequestRef)
    (safeDateOffset since untl : Int) :
    (∀ d, lookupD (getProjectPerformanceStats user_emails query mrsOf
          safeDateOffset since untl).daily_changes d
      = lookupD (getProjectPerformanceStats user_emails query mrsOf
          safeDateOffset since untl).daily_additions d
        + lookupD (getProjectPerformanceStats user_emails query mrsOf
            safeDateOffset since untl).daily_deletions d)
  ∧ valsSum (getProjectPerformanceStats user_emails query mrsOf
        safeDateOffset since untl).daily_additions
      = (getProjectPerformanceStats user_emails query mrsOf
          safeDateOffset since untl).additions
  ∧ valsSum (getProjectPerformanceStats user_emails query mrsOf
        safeDateOffset since untl).daily_deletions
      = (getProjectPerformanceStats user_emails query mrsOf
          safeDateOffset since untl).deletions
  ∧ valsSum (getProjectPerformanceStats user_emails query mrsOf
        safeDateOffset since untl).daily_changes
      = (getProjectPerformanceStats user_emails query mrsOf
          safeDateOffset since untl).changes := by
  have hc : (getProjectPerformanceStats user_emails query mrsOf
        safeDateOffset since untl).daily_changes
      = mapAccum ((sortedOf user_emails query safeDateOffset since untl).map
          (fun c => (parseGitlabDatetime c.authored_date,
            statAdditions c + statDeletions c))) := rfl
  have ha : (getProjectPerformanceStats user_emails query mrsOf
        safeDateOffset since untl).daily_additions
      = mapAccum ((sortedOf user_emails query safeDateOffset since untl).map
          (fun c => (parseGitlabDatetime c.authored_date, statAdditions c))) := rfl
  have hd : (getProjectPerformanceStats user_emails query mrsOf
        safeDateOffset since untl).daily_deletions
      = mapAccum ((sortedOf user_emails query safeDateOffset since untl).map
          (fun c => (parseGitlabDatetime c.authored_date, statDeletions c))) := rfl
  refine ⟨?_, ?_, ?_, ?_⟩
  · intro d
    rw [hc, ha, hd, lookupD_mapAccum_map, lookupD_mapAccum_map, lookupD_mapAccum_map,
      sum_map_add]
  · rw [ha, valsSum_mapAccum_map]
    rfl
  · rw [hd, valsSum_mapAccum_map]
    rfl
  · rw [hc, valsSum_mapAccum_map, sum_map_add]
    rfl

theorem sum_map_split {α : Type} (l : List α) (f g h : α → Int)
    (hfgh : ∀ a ∈ l, f a = g a + h a) :
    (l.map f).sum = (l.map g).sum + (l.map h).sum := by
  rw [List.map_congr_left hfgh, sum_map_add]

theorem nodupKeys_project_daily (user_emails : List String)
    (query : String → Int → Int → List Commit)
    (mrsOf : String → List MergeRequestRef)
    (safeDateOffset since untl : Int) :
    (keysOf (getProjectPerformanceStats user_emails query mrsOf
        safeDateOffset since untl).daily_changes).Nodup
  ∧ (keysOf (getProjectPerformanceStats user_emails query mrsOf
        safeDateOffset since untl).daily_additions).Nodup
  ∧ (keysOf (getProjectPerformanceStats user_emails query mrsOf
        safeDateOffset since untl).daily_deletions).Nodup := by
  have hc : (getProjectPerformanceStats user_emails query mrsOf
        safeDateOffset since untl).daily_changes
      = mapAccum ((sortedOf user_emails query safeDateOffset since untl).map
          (fun c => (parseGitlabDatetime c.authored_date,
            statAdditions c + statDeletions c))) := rfl
  have ha : (getProjectPerformanceStats user_emails query mrsOf
        safeDateOffset since untl).daily_additions
      = mapAccum ((sortedOf user_emails query safeDateOffset since untl).map
          (fun c => (parseGitlabDatetime c.authored_date, statAdditions c))) := rfl
  have hd : (getProjectPerformanceStats user_emails query mrsOf
        safeDateOffset since untl).daily_deletions
      = mapAccum ((sortedOf user_emails query safeDateOffset since untl).map
          (fun c => (parseGitlabDatetime c.authored_date, statDeletions c))) := rfl
  refine ⟨?_, ?_, ?_⟩
  · rw [hc]
    exact nodupKeys_mapAccum _
  · rw [ha]
    exact nodupKeys_mapAccum _
  · rw [hd]
    exact nodupKeys_mapAccum _

/-- Claim C2: for every `ProjectPerformanceResponse` produced by
`get_project_performance_stats` and every `GeneralUserPerformance`
composed from such results by `summarize_user_performance`: for every day
`d`, `daily_changes[d] = daily_additions[d] + daily_deletions[d]`, and
each daily series sums to its total counter (additions, deletions,
changes). -/
theorem claim_C2_daily_series_invariants (user_emails : List String)
    (query : String → Int → Int → List Commit)
    (mrsOf : String → List MergeRequestRef)
    (projects : List ProjectQuery)
    (safeDateOffset start_date end_date : Int) :
    ((∀ d, lookupD (getProjectPerformanceStats user_emails query mrsOf
          safeDateOffset start_date end_date).daily_changes d
        = lookupD (getProjectPerformanceStats user_emails query mrsOf
            safeDateOffset start_date end_date).daily_additions d
          + lookupD (getProjectPerformanceStats user_emails query mrsOf
              safeDateOffset start_date end_date).daily_deletions d)
      ∧ valsSum (getProjectPerformanceStats user_emails query mrsOf
            safeDateOffset start_date end_date).daily_additions
          = (getProjectPerformanceStats user_emails query mrsOf
              safeDateOffset start_date end_date).additions
      ∧ valsSum (getProjectPerformanceStats user_emails query mrsOf
            safeDateOffset start_date end_date).daily_deletions
          = (getProjectPerformanceStats user_emails query mrsOf
              safeDateOffset start_date end_date).deletions
      ∧ valsSum (getProjectPerformanceStats user_emails query mrsOf
            safeDateOffset start_date end_date).daily_changes
          = (getProjectPerformanceStats user_emails query mrsOf
              safeDateOffset start_date end_date).changes)
  ∧ ((∀ d, lookupD (summarizeUserPerformance user_emails projects
          safeDateOffset start_date end_date).daily_changes d
        = lookupD (summarizeUserPerformance user_emails projects
            safeDateOffset start_date end_date).daily_additions d
          + lookupD (summarizeUserPerformance user_emails projects
              safeDateOffset start_date end_date).daily_deletions d)
      ∧ valsSum (summarizeUserPerformance user_emails projects
            safeDateOffset start_date end_date).daily_additions
          = (summarizeUserPerformance user_emails projects
              safeDateOffset start_date end_date).additions
      ∧ valsSum (summarizeUserPerformance user_emails projects
            safeDateOffset start_date end_date).daily_deletions
          = (summarizeUserPerformance user_emails projects
              safeDateOffset start_date end_date).deletions
      ∧ valsSum (summarizeUserPerformance user_emails projects
            safeDateOffset start_date end_date).daily_changes
          = (summarizeUserPerformance user_emails projects
              safeDateOffset start_date end_date).changes) := by
  constructor
  · exact project_daily_invariants user_emails query mrsOf safeDateOffset
      start_date end_date
  · have hgc : (summarizeUserPerformance user_emails projects
          safeDateOffset start_date end_date).daily_changes
        = mapAccum (((projects.map (fun p => getProjectPerformanceStats user_emails
            p.query p.mrsOf safeDateOffset start_date end_date)).map
              (fun pp => pp.daily_changes)).flatten) := rfl
    have hga : (summarizeUserPerformance user_emails projects
          safeDateOffset start_date end_date).daily_additions
        = mapAccum (((projects.map (fun p => getProjectPerformanceStats user_emails
            p.query p.mrsOf safeDateOffset start_date end_date)).map
              (fun pp => pp.daily_additions)).flatten) := rfl
    have hgd : (summarizeUserPerformance user_emails projects
          safeDateOffset start_date end_date).daily_deletions
        = mapAccum (((projects.map (fun p => getProjectPerformanceStats user_emails
            p.query p.mrsOf safeDateOffset start_date end_date)).map
              (fun pp => pp.daily_deletions)).flatten) := rfl
    refine ⟨?_, ?_, ?_, ?_⟩
    · intro d
      rw [hgc, hga, hgd, lookupD_mapAccum_flatten, lookupD_mapAccum_flatten,
        lookupD_mapAccum_flatten]
      simp only [List.map_map]
      refine sum_map_split projects _ _ _ ?_
      intro p _
      show ((((getProjectPerformanceStats user_emails p.query p.mrsOf safeDateOffset
            start_date end_date).daily_changes).filter (fun kv => kv.1 = d)).map
              (fun kv => kv.2)).sum
        = ((((getProjectPerformanceStats user_emails p.query p.mrsOf safeDateOffset
            start_date end_date).daily_additions).filter (fun kv => kv.1 = d)).map
              (fun kv => kv.2)).sum
          + ((((getProjectPerformanceStats user_emails p.query p.mrsOf safeDateOffset
              start_date end_date).daily_deletions).filter (fun kv => kv.1 = d)).map
                (fun kv => kv.2)).sum
      rw [sum_values_filter_eq_lookupD _ _
          (nodupKeys_project_daily user_emails p.query p.mrsOf safeDateOffset
            start_date end_date).1,
        sum_values_filter_eq_lookupD _ _
          (nodupKeys_project_daily user_emails p.query p.mrsOf safeDateOffset
            start_date end_date).2.1,
        sum_values_filter_eq_lookupD _ _
          (nodupKeys_project_daily user_emails p.query p.mrsOf safeDateOffset
            start_date end_date).2.2]
      exact (project_daily_invariants user_emails p.query p.mrsOf safeDateOffset
        start_date end_date).1 d
    · rw [hga, valsSum_mapAccum_flatten]
      simp only [List.map_map]
      have hr : (summarizeUserPerformance user_emails projects
            safeDateOffset start_date end_date).additions
          = (projects.map (fun p => (getProjectPerformanceStats user_emails
              p.query p.mrsOf safeDateOffset start_date end_date).additions)).sum := by
        rw [show (summarizeUserPerformance user_emails projects
              safeDateOffset start_date end_date).additions
            = ((projects.map (fun p => getProjectPerformanceStats user_emails
                p.query p.mrsOf safeDateOffset start_date end_date)).map
                  (fun pp => pp.additions)).sum from rfl, List.map_map]
        rfl
      rw [hr]
      refine congrArg List.sum (List.map_congr_left ?_)
      intro p _
      show valsSum (getProjectPerformanceStats user_emails p.query p.mrsOf
          safeDateOffset start_date end_date).daily_additions
        = (getProjectPerformanceStats user_emails p.query p.mrsOf
            safeDateOffset start_date end_date).additions
      exact (project_daily_invariants user_emails p.query p.mrsOf safeDateOffset
        start_date end_date).2.1
    · rw [hgd, valsSum_mapAccum_flatten]
      simp only [List.map_map]
      have hr : (summarizeUserPerformance user_emails projects
            safeDateOffset start_date end_date).deletions
          = (projects.map (fun p => (getProjectPerformanceStats user_emails
              p.query p.mrsOf safeDateOffset start_date end_date).deletions)).sum := by
        rw [show (summarizeUserPerformance user_emails projects
              safeDateOffset start_date end_date).deletions
            = ((projects.map (fun p => getProjectPerformanceStats user_emails
                p.query p.mrsOf safeDateOffset start_date end_date)).map
                  (fun pp => pp.deletions)).sum from rfl, List.map_map]
        rfl
      rw [hr]
      refine congrArg List.sum (List.map_congr_left ?_)
      intro p _
      show valsSum (getProjectPerformanceStats user_emails p.query p.mrsOf
          safeDateOffset start_date end_date).daily_deletions
        = (getProjectPerformanceStats user_emails p.query p.mrsOf
            safeDateOffset start_date end_date).deletions
      exact (project_daily_invariants user_emails p.query p.mrsOf safeDateOffset
        start_date end_date).2.2.1
    · rw [hgc, valsSum_mapAccum_flatten]
      simp only [List.map_map]
      have hr : (summarizeUserPerformance user_emails projects
            safeDateOffset start_date end_date).changes
          = (projects.map (fun p => (getProjectPerformanceStats user_emails
              p.query p.mrsOf safeDateOffset start_date end_date).additions)).sum
            + (projects.map (fun p => (getProjectPerformanceStats user_emails
                p.query p.mrsOf safeDateOffset start_date end_date).deletions)).sum := by
        rw [show (summarizeUserPerformance user_emails projects
              safeDateOffset start_date end_date).changes
            = ((projects.map (fun p => getProjectPerformanceStats user_emails
                p.query p.mrsOf safeDateOffset start_date end_date)).map
                  (fun pp => pp.additions)).sum
              + ((projects.map (fun p => getProjectPerformanceStats user_emails
                  p.query p.mrsOf safeDateOffset start_date end_date)).map
                    (fun pp => pp.deletions)).sum from rfl,
          List.map_map, List.map_map]
        rfl
      rw [hr]
      refine sum_map_split projects _ _ _ ?_
      intro p _
      show valsSum (getProjectPerformanceStats user_emails p.query p.mrsOf
          safeDateOffset start_date end_date).daily_changes
        = (getProjectPerformanceStats user_emails p.query p.mrsOf
            safeDateOffset start_date end_date).additions
          + (getProjectPerformanceStats user_emails p.query p.mrsOf
              safeDateOffset start_date end_date).deletions
      exact (project_daily_invariants user_emails p.query p.mrsOf safeDateOffset
        start_date end_date).2.2.2

/-- Counterexample to claim C5 as stated: with identity set
`["a@x", "b@x"]` and a provider whose per-identity queries both return
the same commit `g1` (GitLab's `author` filter matches name as well as
email, so overlap is possible), the concatenated fetch retains two
occurrences of the one distinct commit: `total_commits = 2`, the day
bucket counts 2 and the additions total doubles to 20, although only one
distinct commit id is retained — so a distinct retained commit does not
contribute exactly once. -/
theorem claim_C5_counterexample :
    retainedCommits ["a@x", "b@x"] (fun _ _ _ => [cGood]) 0 exSince exSince
      = [cGood, cGood]
  ∧ (getProjectPerformanceStats ["a@x", "b@x"] (fun _ _ _ => [cGood]) exMrs 0
      exSince exSince).commits = 2
  ∧ lookupD (getProjectPerformanceStats ["a@x", "b@x"] (fun _ _ _ => [cGood]) exMrs 0
      exSince exSince).daily_commit_counts exSince = 2
  ∧ (getProjectPerformanceStats ["a@x", "b@x"] (fun _ _ _ => [cGood]) exMrs 0
      exSince exSince).additions = 20
  ∧ ((retainedCommits ["a@x", "b@x"] (fun _ _ _ => [cGood]) 0 exSince exSince).map
      (fun c => c.id)).dedup.length = 1 := by
  refine ⟨rfl, rfl, rfl, rfl, by decide⟩

/-- Claim C5 as amended: the aggregator does not dedupe fetched commits by
commit id: the per-identity query results are concatenated, and every
occurrence passing the retention filter contributes once per occurrence —
to `total_commits`, to the line totals and to the daily series — so a
commit id appearing in the results of more than one identity query is
counted once per appearance. -/
theorem claim_C5_no_dedup (user_emails : List String)
    (query : String → Int → Int → List Commit)
    (mrsOf : String → List MergeRequestRef)
    (safeDateOffset since untl : Int) :
    (getProjectPerformanceStats user_emails query mrsOf safeDateOffset since
        untl).commits
      = (retainedCommits user_emails query safeDateOffset since untl).length
  ∧ (getProjectPerformanceStats user_emails query mrsOf safeDateOffset since
        untl).additions
      = ((retainedCommits user_emails query safeDateOffset since untl).map
          statAdditions).sum
  ∧ (getProjectPerformanceStats user_emails query mrsOf safeDateOffset since
        untl).deletions
      = ((retainedCommits user_emails query safeDateOffset since untl).map
          statDeletions).sum := by
  have hperm := sortedOf_perm_retained user_emails query safeDateOffset since untl
  refine ⟨?_, ?_, ?_⟩
  · show ((fetchedCommits user_emails query since
      (untl + safeDateOffset * 86400)).filter (retainCommit user_emails since untl)).length = _
    rw [userCommits_eq_retained]
  · show ((sortedOf user_emails query safeDateOffset since untl).map statAdditions).sum = _
    exact (hperm.map statAdditions).sum_eq
  · show ((sortedOf user_emails query safeDateOffset since untl).map statDeletions).sum = _
    exact (hperm.map statDeletions).sum_eq

end GitlabUserReports
